import Mathlib

/-!
Verification of the run-history metadata reconciliation algorithm of
`src/lighteval/logging/evaluation_tracker.py` (`EvaluationTracker.recreate_metadata_card`).

The configuration-building part of `recreate_metadata_card` (lines 301-441 of the
source) is shallowly embedded here.  File paths are modelled as lists of
characters (`Str`), Python dicts that preserve insertion order are modelled as
association lists, Python `datetime` values as a seven-field structure, and the
uncaught Python exceptions of the reconciliation (`IndexError`, `ValueError`,
`KeyError`, and the `ValueError` of `datetime.fromisoformat`) as an `Except`
error type.  The standard-library helpers the source calls
(`os.path.basename`, `os.path.dirname`, `str.replace`, `str.split`,
`str.rsplit`, `re.sub` with the patterns `\W` and `[^\w\.]`,
`datetime.fromisoformat`, `datetime.isoformat`, `max`) are modelled on ASCII
strings; `\w` is modelled as ASCII alphanumerics plus underscore, and
`fromisoformat` as the documented pre-3.11 grammar
`YYYY-MM-DD[*HH[:MM[:SS[.fff[fff]]]]]` without timezone suffixes, which covers
every string this algorithm feeds to it.
-/

/-- Character-list strings: all the modelled Python string operations work on
`List Char`, so that concrete runs of the model reduce inside the kernel. -/
abbrev Str := List Char

/-- ASCII model of Python's regex class `\w`: letters, digits and underscore. -/
def isWordChar (c : Char) : Bool :=
  (('a' ≤ c && c ≤ 'z') || ('A' ≤ c && c ≤ 'Z') || ('0' ≤ c && c ≤ '9') || c == '_')

/-- `re.sub(r"\W", "_", s)`: every non-word character becomes an underscore. -/
def sanitizeW (s : Str) : Str :=
  s.map (fun c => if isWordChar c then c else '_')

/-- `re.sub(r"[^\w\.]", "_", s)`: everything but word characters and dots
becomes an underscore. -/
def sanitizeWDot (s : Str) : Str :=
  s.map (fun c => if isWordChar c || c == '.' then c else '_')

/-- Python `sub in s` (substring containment). -/
def containsSub (s sub : Str) : Bool :=
  match s with
  | [] => sub.isEmpty
  | _ :: rest => sub.isPrefixOf s || containsSub rest sub

/-- Python `s.split(sep)[0]` for a non-empty separator: the prefix of `s`
before the first occurrence of `sep` (all of `s` if `sep` does not occur). -/
def splitHead (sep : Str) : Str → Str
  | [] => []
  | c :: rest => if sep.isPrefixOf (c :: rest) then [] else c :: splitHead sep rest

/-- Worker for `replaceList`, structurally recursive on a fuel that dominates
the string length so that concrete calls reduce inside the kernel.  After a
match, `pat.length - 1` further characters of `rest` are skipped, which is the
whole matched occurrence. -/
def replaceFuel (pat rep : Str) : Nat → Str → Str
  | 0, s => s
  | fuel + 1, s =>
    match s with
    | [] => []
    | c :: rest =>
      if pat ≠ [] ∧ pat.isPrefixOf (c :: rest) then
        rep ++ replaceFuel pat rep fuel (List.drop (pat.length - 1) rest)
      else c :: replaceFuel pat rep fuel rest

/-- Python `s.replace(pat, rep)` for a non-empty pattern: replace all
non-overlapping occurrences, scanning left to right.  (Every call site of the
source uses a fixed non-empty literal pattern.) -/
def replaceList (pat rep s : Str) : Str :=
  replaceFuel pat rep s.length s

/-- `os.path.basename`: the part of the path after the last `/`. -/
def basename (s : Str) : Str :=
  (s.reverse.takeWhile (fun c => c ≠ '/')).reverse

/-- `os.path.dirname` (posix): the part before the last `/`, with trailing
slashes stripped unless the result consists only of slashes. -/
def dirname (s : Str) : Str :=
  let head := (s.reverse.dropWhile (fun c => c ≠ '/')).reverse
  if head.isEmpty || head.all (fun c => c == '/') then head
  else (head.reverse.dropWhile (fun c => c == '/')).reverse

/-- Replace the first `n` occurrences of `a` in `s` by `b`. -/
def replaceFirstN (a b : Char) : Nat → Str → Str
  | _, [] => []
  | 0, s => s
  | n + 1, c :: rest =>
    if c = a then b :: replaceFirstN a b n rest else c :: replaceFirstN a b (n + 1) rest

/-- `":".join(dir_name.rsplit("-", 2))` of the source (line 324): the last two
hyphens of the directory name become colons again, undoing the sanitization of
`save` (line 149). -/
def isoFromDir (s : Str) : Str :=
  (replaceFirstN '-' ':' 2 s.reverse).reverse

/-- Model of a Python `datetime.datetime` without timezone. -/
structure PyDateTime where
  year : Nat
  month : Nat
  day : Nat
  hour : Nat
  minute : Nat
  second : Nat
  micro : Nat
deriving DecidableEq, Repr

/-- Strict lexicographic order on datetime components, as Python compares
`datetime` values. -/
def PyDateTime.lexLt (a b : PyDateTime) : Prop :=
  a.year < b.year ∨ (a.year = b.year ∧ (a.month < b.month ∨ (a.month = b.month ∧
  (a.day < b.day ∨ (a.day = b.day ∧ (a.hour < b.hour ∨ (a.hour = b.hour ∧
  (a.minute < b.minute ∨ (a.minute = b.minute ∧ (a.second < b.second ∨
  (a.second = b.second ∧ a.micro < b.micro)))))))))))

instance (a b : PyDateTime) : Decidable (PyDateTime.lexLt a b) := by
  unfold PyDateTime.lexLt; infer_instance

/-- Python `datetime` comparison `a < b` as a boolean. -/
def PyDateTime.ltb (a b : PyDateTime) : Bool :=
  decide (PyDateTime.lexLt a b)

/-- Python `max(a, b)` on datetimes: `b` if `a < b`, else `a`. -/
def pymax (a b : PyDateTime) : PyDateTime :=
  if PyDateTime.ltb a b then b else a

theorem pymax_comm (a b : PyDateTime) : pymax a b = pymax b a := by
  cases a; cases b
  simp only [pymax, PyDateTime.ltb, decide_eq_true_eq]
  split_ifs <;>
    first
      | rfl
      | (simp only [PyDateTime.lexLt, PyDateTime.mk.injEq] at *; omega)

theorem pymax_assoc (a b c : PyDateTime) :
    pymax (pymax a b) c = pymax a (pymax b c) := by
  cases a; cases b; cases c
  simp only [pymax, PyDateTime.ltb, decide_eq_true_eq]
  split_ifs <;>
    first
      | rfl
      | (simp only [PyDateTime.lexLt, PyDateTime.mk.injEq] at *; omega)

theorem pymax_left_comm (v a b : PyDateTime) :
    pymax (pymax v a) b = pymax (pymax v b) a := by
  rw [pymax_assoc, pymax_comm a b, ← pymax_assoc]

/-- Emit exactly `k` decimal digits of `n` (most significant first), the value
of Python's zero-padded `%0kd` formatting for `n < 10^k`; `datetime` components
always satisfy those bounds. -/
def emitDigits : Nat → Nat → Str
  | 0, _ => []
  | k + 1, n => emitDigits k (n / 10) ++ [Char.ofNat (48 + n % 10)]

/-- Numeric value of a digit string (most significant first). -/
def strToNatAux (s : Str) : Nat :=
  s.foldl (fun a c => a * 10 + (c.toNat - 48)) 0

/-- Read exactly `k` decimal digits from the front of `s`, returning their
value and the rest of the string. -/
def readN (k : Nat) (s : Str) : Option (Nat × Str) :=
  let pre := s.take k
  if pre.length = k && pre.all Char.isDigit then some (strToNatAux pre, s.drop k)
  else none

def isLeapYear (y : Nat) : Bool :=
  y % 4 == 0 && (y % 100 != 0 || y % 400 == 0)

def daysInMonth (y m : Nat) : Nat :=
  if m = 2 then (if isLeapYear y then 29 else 28)
  else if m = 4 ∨ m = 6 ∨ m = 9 ∨ m = 11 then 30
  else 31

/-- Consume one expected character from the front of a string. -/
def expectChar (c : Char) (s : Str) : Option Str :=
  match s with
  | [] => none
  | x :: rest => if x = c then some rest else none

/-- Time-of-day part of the pre-3.11 `datetime.fromisoformat` grammar:
`HH[:MM[:SS[.fff[fff]]]]`, returning `(hour, minute, second, microsecond)`.
A three-digit fraction is milliseconds. -/
def parseTimePart (s : Str) : Option (Nat × Nat × Nat × Nat) := do
  let (hh, s1) ← readN 2 s
  if s1.isEmpty then pure (hh, 0, 0, 0)
  else do
    let s2 ← expectChar ':' s1
    let (mi, s3) ← readN 2 s2
    if s3.isEmpty then pure (hh, mi, 0, 0)
    else do
      let s4 ← expectChar ':' s3
      let (se, s5) ← readN 2 s4
      if s5.isEmpty then pure (hh, mi, se, 0)
      else do
        let s6 ← expectChar '.' s5
        match readN 6 s6 with
        | some (f6, r6) => if r6.isEmpty then pure (hh, mi, se, f6) else none
        | none =>
          match readN 3 s6 with
          | some (f3, r3) => if r3.isEmpty then pure (hh, mi, se, f3 * 1000) else none
          | none => none

/-- Model of `datetime.fromisoformat` (pre-3.11 grammar, no timezone):
`YYYY-MM-DD[*HH[:MM[:SS[.fff[fff]]]]]` where `*` is any single separator
character (dropped by `tail`), with calendar validation.  `none` models the
`ValueError` Python raises on any other string. -/
def pyFromIso (s : Str) : Option PyDateTime := do
  let (y, s1) ← readN 4 s
  let s2 ← expectChar '-' s1
  let (mo, s3) ← readN 2 s2
  let s4 ← expectChar '-' s3
  let (d, s5) ← readN 2 s4
  let (hh, mi, se, mic) ← if s5.isEmpty then pure (0, 0, 0, 0) else parseTimePart s5.tail
  if 1 ≤ y ∧ 1 ≤ mo ∧ mo ≤ 12 ∧ 1 ≤ d ∧ d ≤ daysInMonth y mo ∧
      hh ≤ 23 ∧ mi ≤ 59 ∧ se ≤ 59 then
    pure ⟨y, mo, d, hh, mi, se, mic⟩
  else none

/-- Model of `datetime.isoformat()` without timezone: the microseconds part is
printed (as six digits) only when non-zero. -/
def pyIsoformat (d : PyDateTime) : Str :=
  emitDigits 4 d.year ++ '-' :: emitDigits 2 d.month ++ '-' :: emitDigits 2 d.day ++
  'T' :: emitDigits 2 d.hour ++ ':' :: emitDigits 2 d.minute ++ ':' :: emitDigits 2 d.second ++
  (if d.micro = 0 then [] else '.' :: emitDigits 6 d.micro)

/-- One `{"split": ..., "path": [...]}` element of a config's `data_files`
list in the metadata card. -/
structure SplitEntry where
  split : Str
  path : List Str
deriving DecidableEq, Repr

abbrev DataFiles := List SplitEntry

/-- The `card_metadata` `MetadataConfigs` dict: config name to `data_files`
list, insertion-ordered, as Python dicts are. -/
abbrev CardMetadata := List (Str × DataFiles)

/-- Dict lookup on an insertion-ordered association list. -/
def alFind? {α : Type} : List (Str × α) → Str → Option α
  | [], _ => none
  | p :: rest, k => if p.1 == k then some p.2 else alFind? rest k

/-- Python `k in d`. -/
def alContains {α : Type} (cm : List (Str × α)) (k : Str) : Bool :=
  (alFind? cm k).isSome

/-- Dict read with a default (all source reads happen on present keys). -/
def alGetD {α : Type} (cm : List (Str × α)) (k : Str) (dflt : α) : α :=
  (alFind? cm k).getD dflt

/-- Python `d[k] = v`: replace the value at an existing key in place, append a
new key at the end. -/
def alSet {α : Type} : List (Str × α) → Str → α → List (Str × α)
  | [], k, v => [(k, v)]
  | (k', v') :: rest, k, v =>
    if k' == k then (k, v) :: rest else (k', v') :: alSet rest k v

/-- The uncaught Python exceptions of `recreate_metadata_card`'s
configuration-building code:
`indexError` is `list(last_eval_date_results.values())[0]` on an empty dict
(line 331); `parseError` is the `ValueError` of `datetime.fromisoformat`
(line 325); `keyError` is `last_eval_date_results[task_name]` on a missing key
(line 353); `valueError` is the duplicate-entry guard of single-result mode
(line 371 — actually a `NameError` when no `former_entry` was ever assigned,
but an uncaught exception either way). -/
inductive RecErr where
  | indexError
  | parseError (sub_file : Str)
  | keyError (task_name : Str)
  | valueError (sanitized_task : Str)
deriving DecidableEq, Repr

deriving instance DecidableEq for Except

/-- First-pass task key (line 316-318):
`os.path.basename(sub_file).replace("details_", "").split("_202")[0]`. -/
def detailTaskPass1 (sub_file : Str) : Str :=
  splitHead ("_202".toList) (replaceList ("details_".toList) [] (basename sub_file))

/-- Second-pass task key (line 350):
`os.path.basename(sub_file).replace("details_", "").split("_2023")[0].split("_2024")[0]`. -/
def detailTaskPass2 (sub_file : Str) : Str :=
  splitHead ("_2024".toList)
    (splitHead ("_2023".toList) (replaceList ("details_".toList) [] (basename sub_file)))

/-- Lines 327-329: `last_eval_date_results[task_name] =
max(last_eval_date_results[task_name], eval_date) if task_name in
last_eval_date_results else eval_date`. -/
def updateMax (acc : List (Str × PyDateTime)) (t : Str) (d : PyDateTime) :
    List (Str × PyDateTime) :=
  if alContains acc t then
    acc.map (fun p => if p.1 == t then (p.1, pymax p.2 d) else p)
  else acc ++ [(t, d)]

/-- One iteration of the first pass (lines 308-329): skip `results_` files,
parse the directory name as a timestamp, track the per-task maximum. -/
def pass1Step (acc : List (Str × PyDateTime)) (sub_file : Str) :
    Except RecErr (List (Str × PyDateTime)) :=
  if containsSub sub_file ("results_".toList) then .ok acc
  else
    match pyFromIso (isoFromDir (dirname sub_file)) with
    | none => .error (.parseError sub_file)
    | some d => .ok (updateMax acc (detailTaskPass1 sub_file) d)

/-- The first pass over all parquet files, building `last_eval_date_results`. -/
def pass1 (parquet_files : List Str) : Except RecErr (List (Str × PyDateTime)) :=
  parquet_files.foldlM pass1Step []

/-- Lines 331-335: `max_last_eval_date_results` starts as the first dict value
and is raised over all values. -/
def maxDate : List (Str × PyDateTime) → Option PyDateTime
  | [] => none
  | (t0, d0) :: rest => some (((t0, d0) :: rest).foldl (fun m p => pymax m p.2) d0)

def SPECIAL_TASKS : List Str := ["lighteval|mmlu".toList, "original|mmlu".toList]

/-- Read-extend-write of a config's `data_files` by one entry, the common shape
of lines 358-368, 374-376 and 378-382. -/
def appendEntry (cm : CardMetadata) (task : Str) (e : SplitEntry) : CardMetadata :=
  alSet cm task (alGetD cm task [] ++ [e])

/-- The `next(index for ... if dictionary.get("split", None) == name)` search
succeeds (no `StopIteration`). -/
def hasSplitNamed (es : DataFiles) (s : Str) : Bool :=
  es.any (fun e => e.split == s)

/-- `former_entry[split_index]["path"] += [repo_file_name]` at the first index
whose split equals `s` (lines 409-423 and 427-441). -/
def addToFirstSplit (es : DataFiles) (s : Str) (p : Str) : DataFiles :=
  match es with
  | [] => []
  | e :: rest =>
    if e.split == s then ⟨e.split, e.path ++ [p]⟩ :: rest
    else e :: addToFirstSplit rest s p

/-- Merge rule of the special-task configs: extend the path list of the first
entry with this split name, or append a fresh entry when the split is new. -/
def mergeOrAppendSplit (cm : CardMetadata) (sst splitName p : Str) : CardMetadata :=
  let fe := alGetD cm sst []
  if hasSplitNamed fe splitName then alSet cm sst (addToFirstSplit fe splitName p)
  else alSet cm sst (fe ++ [⟨splitName, [p]⟩])

/-- Lines 402-423: create the special config when absent, otherwise merge by
split name. -/
def specialUpdate (cm : CardMetadata) (sst sed p : Str) : CardMetadata :=
  if ¬ alContains cm sst then alSet cm sst [⟨sed, [p]⟩]
  else mergeOrAppendSplit cm sst sed p

/-- The special task name with the shot-count suffix (lines 396-401):
`task_info = task_name.split("|")`; three segments keep the last one, four
segments keep the last two, anything else adds no suffix. -/
def specialTaskName (sst0 task_name : Str) : Str :=
  let task_info := task_name.splitOn '|'
  if task_info.length == 3 then sst0 ++ '_' :: task_info.getLastD []
  else if task_info.length == 4 then
    sst0 ++ '_' :: task_info.getD 2 [] ++ '_' :: task_info.getD 3 []
  else sst0

/-- Lines 393-441 for one element of `SPECIAL_TASKS`: when the slugified
special name occurs in the slugified task name, merge this file into the
special config, and into its `"latest"` split when this run is the task's
latest. -/
def specialStepOne (task_name sanitized_task sed slast repo_file_name : Str)
    (cm : CardMetadata) (special_task : Str) : CardMetadata :=
  let sst0 := sanitizeW special_task
  if containsSub sanitized_task sst0 then
    let sst := specialTaskName sst0 task_name
    let cm1 := specialUpdate cm sst sed repo_file_name
    if sed == slast then mergeOrAppendSplit cm1 sst ("latest".toList) repo_file_name
    else cm1
  else cm

/-- Lines 358-376: the per-file update of the file's own config.  With
multiple result files the entry is appended; otherwise a duplicate config name
is the fatal guard of single-result mode. -/
def mainConfigUpdate (multiple_results : Bool) (cm : CardMetadata)
    (sanitized_task sed repo_file_name : Str) : Except RecErr CardMetadata :=
  if multiple_results then .ok (appendEntry cm sanitized_task ⟨sed, [repo_file_name]⟩)
  else
    if alContains cm sanitized_task then .error (.valueError sanitized_task)
    else .ok (alSet cm sanitized_task [⟨sed, [repo_file_name]⟩])

/-- Lines 378-382: when this file's sanitized date is the (per-task or global)
sanitized maximum, a `"latest"` entry with the same path is appended. -/
def latestUpdate (cm : CardMetadata) (sanitized_task sed slast repo_file_name : Str) :
    CardMetadata :=
  if sed == slast then appendEntry cm sanitized_task ⟨"latest".toList, [repo_file_name]⟩
  else cm

/-- One iteration of the configuration-building pass (lines 343-441). -/
def pass2Step (multiple_results : Bool) (lastIso : List (Str × Str)) (maxIso : Str)
    (cm : CardMetadata) (sub_file : Str) : Except RecErr CardMetadata :=
  if containsSub sub_file ("results_".toList) then
    let eval_date :=
      replaceList (".parquet".toList) [] (replaceList ("results_".toList) [] (basename sub_file))
    let sanitized_task := "results".toList
    let slast := sanitizeWDot maxIso
    let repo_file_name := basename sub_file
    let sed := sanitizeWDot eval_date
    match mainConfigUpdate multiple_results cm sanitized_task sed repo_file_name with
    | .error e => .error e
    | .ok cm1 => .ok (latestUpdate cm1 sanitized_task sed slast repo_file_name)
  else
    let task_name := detailTaskPass2 sub_file
    match alFind? lastIso task_name with
    | none => .error (.keyError task_name)
    | some li =>
      let sanitized_task := sanitizeW task_name
      let eval_date := dirname sub_file
      let slast := sanitizeWDot li
      let repo_file_name := "**/".toList ++ basename sub_file
      let sed := sanitizeWDot eval_date
      match mainConfigUpdate multiple_results cm sanitized_task sed repo_file_name with
      | .error e => .error e
      | .ok cm1 =>
        let cm2 := latestUpdate cm1 sanitized_task sed slast repo_file_name
        .ok (SPECIAL_TASKS.foldl (specialStepOne task_name sanitized_task sed slast repo_file_name) cm2)

/-- The configuration-building core of `recreate_metadata_card`
(lines 301-441): from the repository file listing to the `card_metadata`
configuration document, or the uncaught exception that aborts it. -/
def recreate_metadata_card (files_in_repo : List Str) : Except RecErr CardMetadata :=
  let results_files := files_in_repo.filter (fun f => containsSub f (".json".toList))
  let parquet_files := files_in_repo.filter (fun f => containsSub f (".parquet".toList))
  let multiple_results := results_files.length > 1
  match pass1 parquet_files with
  | .error e => .error e
  | .ok last =>
    match maxDate last with
    | none => .error .indexError
    | some mx =>
      let lastIso := last.map (fun p => (p.1, pyIsoformat p.2))
      let maxIso := pyIsoformat mx
      parquet_files.foldlM (pass2Step multiple_results lastIso maxIso) []

/-! ## Concrete scenario inputs -/

/-- Scenario B detail file (January run of task `mmlu:us_history`). -/
def fileJan : Str :=
  "2024-01-01T00-00-00.123456/details_mmlu:us_history_2024-01-01T00-00-00.123456.parquet".toList

/-- Scenario B detail file (February run of task `mmlu:us_history`). -/
def fileFeb : Str :=
  "2024-02-01T00-00-00.123456/details_mmlu:us_history_2024-02-01T00-00-00.123456.parquet".toList

/-- Scenario C detail file for subtask `lighteval|mmlu:us_history|5`. -/
def fileUsHistory : Str :=
  "2024-03-05T10-00-00.123456/details_lighteval|mmlu:us_history|5_2024-03-05T10-00-00.123456.parquet".toList

/-- Scenario C detail file for subtask `lighteval|mmlu:world_religions|5`
at the same timestamp. -/
def fileWorldReligions : Str :=
  "2024-03-05T10-00-00.123456/details_lighteval|mmlu:world_religions|5_2024-03-05T10-00-00.123456.parquet".toList

/-! ## C3: empty listing -/

/-- C3 counterexample: on the empty listing the reconciliation does not return
an empty configuration; it fails with the `IndexError` of
`list(last_eval_date_results.values())[0]` (line 331). -/
theorem c3_counterexample :
    recreate_metadata_card [] = Except.error RecErr.indexError := by decide

/-- Lemma: the first pass maps any list of files that all contain `results_`
to its starting accumulator. -/
theorem pass1_all_results (fs : List Str) (acc : List (Str × PyDateTime))
    (h : ∀ f ∈ fs, containsSub f ("results_".toList) = true) :
    fs.foldlM pass1Step acc = Except.ok acc := by
  induction fs generalizing acc with
  | nil => rfl
  | cons f rest ih =>
    have hf := h f (by simp)
    simp only [List.foldlM_cons, pass1Step, hf, if_true]
    exact ih acc (fun g hg => h g (by simp [hg]))

/-- C3 (amended): a listing with no detail parquet files (every file either
lacks `.parquet` in its name or contains `results_`) makes reconciliation fail
with the `IndexError` of the global-maximum computation — it does not return
an empty configuration. -/
theorem c3_amended (l : List Str)
    (h : ∀ f ∈ l, containsSub f (".parquet".toList) = false ∨
          containsSub f ("results_".toList) = true) :
    recreate_metadata_card l = Except.error RecErr.indexError := by
  have hres : ∀ f ∈ l.filter (fun f => containsSub f (".parquet".toList)),
      containsSub f ("results_".toList) = true := by
    intro f hf
    rcases List.mem_filter.mp hf with ⟨hmem, hpq⟩
    rcases h f hmem with h1 | h1
    · rw [h1] at hpq; exact absurd hpq (by simp)
    · exact h1
  have h1 : List.foldlM pass1Step []
      (l.filter (fun f => containsSub f (".parquet".toList))) = Except.ok [] :=
    pass1_all_results _ [] hres
  simp only [recreate_metadata_card, pass1, h1]
  rfl

/-- C3 witness: a concrete listing with no parquet files hits the amended
claim's error. -/
theorem c3_witness :
    recreate_metadata_card ["a.json".toList] = Except.error RecErr.indexError :=
  c3_amended ["a.json".toList] (by decide)

/-! ## C4: Scenario B (two runs of one task) -/

/-- C4 counterexample: a listing consisting of exactly the two detail files of
task `mmlu_us_history` has no result `.json` files, so `multiple_results` is
false and the second file trips the duplicate-entry guard: reconciliation
fails instead of succeeding as the claim states. -/
theorem c4_counterexample :
    recreate_metadata_card [fileJan, fileFeb] =
      Except.error (RecErr.valueError ("mmlu_us_history".toList)) := by decide

/-- C4 (amended): with the two detail files of task `mmlu_us_history`
accompanied by two result `.json` files (multiple-results mode),
reconciliation succeeds and the config `mmlu_us_history` consists of exactly
the two dated splits plus a `latest` split equal to the February split's path
list only. -/
theorem c4_amended :
    recreate_metadata_card ["a.json".toList, "b.json".toList, fileJan, fileFeb] =
      Except.ok
        [(("mmlu_us_history".toList),
          [⟨"2024_01_01T00_00_00.123456".toList,
            ["**/details_mmlu:us_history_2024-01-01T00-00-00.123456.parquet".toList]⟩,
           ⟨"2024_02_01T00_00_00.123456".toList,
            ["**/details_mmlu:us_history_2024-02-01T00-00-00.123456.parquet".toList]⟩,
           ⟨"latest".toList,
            ["**/details_mmlu:us_history_2024-02-01T00-00-00.123456.parquet".toList]⟩])] := by
  decide

/-! ## C5: Scenario C (special-group merge of sibling subtasks) -/

/-- The configuration document produced for Scenario C. -/
def cmScenarioC : CardMetadata :=
  [(("lighteval_mmlu_us_history_5".toList),
    [⟨"2024_03_05T10_00_00.123456".toList,
      ["**/details_lighteval|mmlu:us_history|5_2024-03-05T10-00-00.123456.parquet".toList]⟩,
     ⟨"latest".toList,
      ["**/details_lighteval|mmlu:us_history|5_2024-03-05T10-00-00.123456.parquet".toList]⟩]),
   (("lighteval_mmlu_5".toList),
    [⟨"2024_03_05T10_00_00.123456".toList,
      ["**/details_lighteval|mmlu:us_history|5_2024-03-05T10-00-00.123456.parquet".toList,
       "**/details_lighteval|mmlu:world_religions|5_2024-03-05T10-00-00.123456.parquet".toList]⟩,
     ⟨"latest".toList,
      ["**/details_lighteval|mmlu:us_history|5_2024-03-05T10-00-00.123456.parquet".toList,
       "**/details_lighteval|mmlu:world_religions|5_2024-03-05T10-00-00.123456.parquet".toList]⟩]),
   (("lighteval_mmlu_world_religions_5".toList),
    [⟨"2024_03_05T10_00_00.123456".toList,
      ["**/details_lighteval|mmlu:world_religions|5_2024-03-05T10-00-00.123456.parquet".toList]⟩,
     ⟨"latest".toList,
      ["**/details_lighteval|mmlu:world_religions|5_2024-03-05T10-00-00.123456.parquet".toList]⟩])]

/-- C5: for the two sibling subtasks of the `lighteval|mmlu` family at one
identical timestamp, reconciliation succeeds, the merged group config
`lighteval_mmlu_5` exists, and it has exactly one split named with that
timestamp, whose path list contains both files' paths in extension order. -/
theorem c5_theorem :
    recreate_metadata_card [fileUsHistory, fileWorldReligions] = Except.ok cmScenarioC ∧
    alFind? cmScenarioC ("lighteval_mmlu_5".toList) =
      some
        [⟨"2024_03_05T10_00_00.123456".toList,
          ["**/details_lighteval|mmlu:us_history|5_2024-03-05T10-00-00.123456.parquet".toList,
           "**/details_lighteval|mmlu:world_religions|5_2024-03-05T10-00-00.123456.parquet".toList]⟩,
         ⟨"latest".toList,
          ["**/details_lighteval|mmlu:us_history|5_2024-03-05T10-00-00.123456.parquet".toList,
           "**/details_lighteval|mmlu:world_religions|5_2024-03-05T10-00-00.123456.parquet".toList]⟩] ∧
    ((alGetD cmScenarioC ("lighteval_mmlu_5".toList) []).filter
        (fun e => e.split == "2024_03_05T10_00_00.123456".toList)).length = 1 := by
  refine ⟨by decide, by decide, by decide⟩

/-! ## C10: detail files with a `202X` year other than 2023 or 2024 -/

/-- A canonical detail file whose run timestamp has year `202x`
(`x` the final year digit), for task `t|x|0`. -/
def fileYear (x : Nat) : Str :=
  "202".toList ++ [Char.ofNat (48 + x)] ++ "-01-01T00-00-00".toList ++
  '/' :: "details_t|x|0_202".toList ++ [Char.ofNat (48 + x)] ++
  "-01-01T00-00-00.parquet".toList

/-- The second-pass task key such a file produces: the `_202X` cut of the
first pass does not happen, so the timestamp suffix is retained. -/
def taskYearSuffixed (x : Nat) : Str :=
  "t|x|0_202".toList ++ [Char.ofNat (48 + x)] ++ "-01-01T00-00-00.parquet".toList

/-- C10: for a canonical detail file whose timestamp year is `202X` with
`X ∉ {3, 4}`, the second pass looks up the suffix-retaining task name, which
the first-pass registry does not contain, and reconciliation fails with that
`KeyError`; for the years 2023 and 2024 the same listing reconciles fine. -/
theorem c10_theorem :
    (∀ x : Nat, x < 10 → x ≠ 3 → x ≠ 4 →
      recreate_metadata_card [fileYear x] =
        Except.error (RecErr.keyError (taskYearSuffixed x))) ∧
    (recreate_metadata_card [fileYear 3]).isOk = true ∧
    (recreate_metadata_card [fileYear 4]).isOk = true := by
  refine ⟨?_, by decide, by decide⟩
  intro x h1 h2 h3
  interval_cases x <;> first | omega | decide

/-- C10 witness: the 2025 instance of the `KeyError`. -/
theorem c10_witness :
    recreate_metadata_card [fileYear 5] =
      Except.error (RecErr.keyError (taskYearSuffixed 5)) :=
  c10_theorem.1 5 (by decide) (by decide) (by decide)

/-! ## C7: files matching neither naming pattern -/

/-- C7 counterexample: `garbage.parquet` matches neither the result-file nor
the detail-file pattern, yet adding it to a well-formed listing aborts the
whole reconciliation with the timestamp-parse error of the first pass, instead
of being excluded without an exception. -/
theorem c7_counterexample :
    (recreate_metadata_card [fileJan]).isOk = true ∧
    recreate_metadata_card [fileJan, "garbage.parquet".toList] =
      Except.error (RecErr.parseError ("garbage.parquet".toList)) :=
  ⟨by decide, by decide⟩

/-- C7 (amended): a file whose name contains neither `.json` nor `.parquet`
enters neither of the two filtered file lists, so reconciliation excludes it,
raises nothing because of it, and produces exactly the configuration of the
listing without it.  (Files that do contain `.parquet` but match neither
naming pattern instead abort the run in the first pass.) -/
theorem c7_amended (l1 l2 : List Str) (x : Str)
    (hj : containsSub x (".json".toList) = false)
    (hp : containsSub x (".parquet".toList) = false) :
    recreate_metadata_card (l1 ++ x :: l2) = recreate_metadata_card (l1 ++ l2) := by
  simp only [recreate_metadata_card, List.filter_append, List.filter_cons, hj, hp,
    Bool.false_eq_true, if_false]

/-- C7 witness: a `README.md` in the listing leaves the configuration
untouched. -/
theorem c7_witness :
    recreate_metadata_card [fileJan, "README.md".toList] =
      recreate_metadata_card [fileJan] :=
  c7_amended [fileJan] [] ("README.md".toList) (by decide) (by decide)

/-! ## C9: the sanitize-then-recover round trip on timestamps -/

theorem replaceFirstN_zero (a b : Char) (s : Str) : replaceFirstN a b 0 s = s := by
  cases s <;> rfl

theorem replaceFirstN_cons_self (a b : Char) (n : Nat) (s : Str) :
    replaceFirstN a b (n + 1) (a :: s) = b :: replaceFirstN a b n s := by
  simp [replaceFirstN]

theorem replaceFirstN_append (a b : Char) (n : Nat) (xs ys : Str) (h : a ∉ xs) :
    replaceFirstN a b n (xs ++ ys) = xs ++ replaceFirstN a b n ys := by
  induction xs generalizing n with
  | nil => rfl
  | cons x rest ih =>
    have hx : x ≠ a := fun hxa => h (hxa ▸ List.mem_cons_self x rest)
    have hrest : a ∉ rest := fun hm => h (List.mem_cons_of_mem _ hm)
    cases n with
    | zero => simp [replaceFirstN_zero]
    | succ n =>
      simp only [List.cons_append, replaceFirstN, if_neg hx]
      exact congrArg (x :: ·) (ih (n + 1) hrest)

/-- Undoing the path sanitization: when `q` and `r` are hyphen-free, the last
two hyphens of `p ++ "-" ++ q ++ "-" ++ r` are exactly the two shown ones, and
the rsplit-rejoin turns them back into colons. -/
theorem isoFromDir_restore (p q r : Str) (hq : '-' ∉ q) (hr : '-' ∉ r) :
    isoFromDir (p ++ '-' :: q ++ '-' :: r) = p ++ ':' :: q ++ ':' :: r := by
  unfold isoFromDir
  have h1 : (p ++ '-' :: q ++ '-' :: r).reverse =
      r.reverse ++ '-' :: (q.reverse ++ '-' :: p.reverse) := by simp
  rw [h1, replaceFirstN_append _ _ _ _ _ (by simpa using hr),
      replaceFirstN_cons_self, replaceFirstN_append _ _ _ _ _ (by simpa using hq),
      replaceFirstN_cons_self, replaceFirstN_zero]
  simp

theorem ofNat_digit_isDigit {m : Nat} (h : m < 10) :
    (Char.ofNat (48 + m)).isDigit = true := by
  interval_cases m <;> decide

theorem toNat_ofNat_digit {m : Nat} (h : m < 10) :
    (Char.ofNat (48 + m)).toNat = 48 + m := by
  interval_cases m <;> decide

theorem emitDigits_isDigit (k n : Nat) : ∀ c ∈ emitDigits k n, c.isDigit = true := by
  induction k generalizing n with
  | zero => intro c hc; simp [emitDigits] at hc
  | succ k ih =>
    intro c hc
    simp only [emitDigits, List.mem_append, List.mem_singleton] at hc
    rcases hc with hc | hc
    · exact ih _ c hc
    · subst hc; exact ofNat_digit_isDigit (Nat.mod_lt _ (by norm_num))

theorem emitDigits_length (k n : Nat) : (emitDigits k n).length = k := by
  induction k generalizing n with
  | zero => rfl
  | succ k ih => simp [emitDigits, ih]

theorem not_mem_of_all_digit {s : Str} (hs : ∀ c ∈ s, c.isDigit = true) {c : Char}
    (hc : c.isDigit = false) : c ∉ s := by
  intro hmem
  rw [hs c hmem] at hc
  simp at hc

theorem strToNatAux_append_singleton (s : Str) (c : Char) :
    strToNatAux (s ++ [c]) = strToNatAux s * 10 + (c.toNat - 48) := by
  simp [strToNatAux, List.foldl_append]

theorem strToNatAux_emitDigits (k n : Nat) (h : n < 10 ^ k) :
    strToNatAux (emitDigits k n) = n := by
  induction k generalizing n with
  | zero =>
    have : n = 0 := by simpa using h
    subst this; rfl
  | succ k ih =>
    have h1 : n / 10 < 10 ^ k := by
      rw [Nat.div_lt_iff_lt_mul (by norm_num)]
      calc n < 10 ^ (k + 1) := h
        _ = 10 ^ k * 10 := by rw [pow_succ]
    rw [emitDigits, strToNatAux_append_singleton, ih _ h1,
        toNat_ofNat_digit (Nat.mod_lt _ (by norm_num))]
    omega

theorem readN_emit (k n : Nat) (rest : Str) (h : n < 10 ^ k) :
    readN k (emitDigits k n ++ rest) = some (n, rest) := by
  have hlen := emitDigits_length k n
  simp only [readN]
  rw [List.take_left' hlen, List.drop_left' hlen, if_pos, strToNatAux_emitDigits k n h]
  simp [List.all_eq_true, hlen]
  exact fun c hc => emitDigits_isDigit k n c hc

theorem readN_emit_nil (k n : Nat) (h : n < 10 ^ k) :
    readN k (emitDigits k n) = some (n, []) := by
  have h2 := readN_emit k n [] h
  rwa [List.append_nil] at h2

theorem map_keep_digits (f : Char → Char) (s : Str)
    (hf : ∀ c, c.isDigit = true → f c = c) (hs : ∀ c ∈ s, c.isDigit = true) :
    s.map f = s := by
  induction s with
  | nil => rfl
  | cons c rest ih =>
    rw [List.map_cons, hf c (hs c (List.mem_cons_self c rest)),
        ih (fun x hx => hs x (List.mem_cons_of_mem _ hx))]

theorem replaceFuel_single (a b : Char) (s : Str) (fuel : Nat) (h : s.length ≤ fuel) :
    replaceFuel [a] [b] fuel s =
      s.map (fun c => if c = a then b else c) := by
  induction fuel generalizing s with
  | zero =>
    cases s with
    | nil => rfl
    | cons c rest => simp at h
  | succ fuel ih =>
    cases s with
    | nil => rfl
    | cons c rest =>
      simp only [replaceFuel, List.isPrefixOf, List.map_cons]
      by_cases hca : a = c
      · subst hca
        rw [if_pos ⟨by simp, by simp [List.isPrefixOf]⟩]
        have hr : rest.length ≤ fuel := by
          simpa using Nat.le_of_succ_le_succ (by simpa using h)
        simp [ih rest hr]
      · rw [if_neg (fun hcon => hca (by simpa [List.isPrefixOf] using hcon.2)), if_neg (fun hc => hca hc.symm)]
        exact congrArg (c :: ·) (ih rest (by simpa using Nat.le_of_succ_le_succ (by simpa using h)))

/-- `s.replace(a, b)` for single characters is the character map. -/
theorem replaceList_single (a b : Char) (s : Str) :
    replaceList [a] [b] s = s.map (fun c => if c = a then b else c) :=
  replaceFuel_single a b s s.length le_rfl

/-- The component ranges every Python `datetime` value satisfies. -/
def validDT (d : PyDateTime) : Prop :=
  1 ≤ d.year ∧ d.year ≤ 9999 ∧ 1 ≤ d.month ∧ d.month ≤ 12 ∧ 1 ≤ d.day ∧
  d.day ≤ daysInMonth d.year d.month ∧ d.hour ≤ 23 ∧ d.minute ≤ 59 ∧
  d.second ≤ 59 ∧ d.micro ≤ 999999

theorem swap_keep_digit (c : Char) (hc : c.isDigit = true) :
    (if c = ':' then '-' else c) = c := by
  rw [if_neg]
  intro he; subst he; exact absurd hc (by decide)

theorem daysInMonth_le (y m : Nat) : daysInMonth y m ≤ 31 := by
  unfold daysInMonth
  split_ifs <;> omega

/-- Sanitizing an `isoformat` string for path use and recovering it by
rejoining the last two hyphen-separated pieces with colons is the identity. -/
theorem iso_sanitize_recover (d : PyDateTime) :
    isoFromDir (replaceList [':'] ['-'] (pyIsoformat d)) = pyIsoformat d := by
  rw [replaceList_single]
  have hMi := emitDigits_isDigit 2 d.minute
  have hS := emitDigits_isDigit 2 d.second
  have hU := emitDigits_isDigit 6 d.micro
  have hmap : (pyIsoformat d).map (fun c => if c = ':' then '-' else c) =
      (emitDigits 4 d.year ++ '-' :: emitDigits 2 d.month ++ '-' :: emitDigits 2 d.day ++
        'T' :: emitDigits 2 d.hour) ++ '-' :: emitDigits 2 d.minute ++
        '-' :: (emitDigits 2 d.second ++
          (if d.micro = 0 then [] else '.' :: emitDigits 6 d.micro)) := by
    simp only [pyIsoformat, List.map_append, List.map_cons, apply_ite (List.map _),
      List.map_nil, List.append_assoc]
    rw [map_keep_digits _ _ swap_keep_digit (emitDigits_isDigit 4 d.year),
        map_keep_digits _ _ swap_keep_digit (emitDigits_isDigit 2 d.month),
        map_keep_digits _ _ swap_keep_digit (emitDigits_isDigit 2 d.day),
        map_keep_digits _ _ swap_keep_digit (emitDigits_isDigit 2 d.hour),
        map_keep_digits _ _ swap_keep_digit hMi,
        map_keep_digits _ _ swap_keep_digit hS,
        map_keep_digits _ _ swap_keep_digit hU]
    simp
  have hq : '-' ∉ emitDigits 2 d.minute := not_mem_of_all_digit hMi (by decide)
  have hr : '-' ∉ emitDigits 2 d.second ++
      (if d.micro = 0 then [] else '.' :: emitDigits 6 d.micro) := by
    intro hmem
    rcases List.mem_append.mp hmem with hm | hm
    · exact not_mem_of_all_digit hS (by decide) hm
    · by_cases hmic : d.micro = 0
      · rw [if_pos hmic] at hm; simp at hm
      · rw [if_neg hmic] at hm
        rcases List.mem_cons.mp hm with he | hm2
        · exact absurd he (by decide)
        · exact not_mem_of_all_digit hU (by decide) hm2
  rw [hmap, isoFromDir_restore _ _ _ hq hr]
  simp [pyIsoformat]

set_option maxHeartbeats 2000000 in
/-- The `isoformat` output of a valid datetime parses back with
`fromisoformat` to the same value. -/
theorem pyFromIso_isoformat (d : PyDateTime) (h : validDT d) :
    pyFromIso (pyIsoformat d) = some d := by
  obtain ⟨y, mo, dy, hh, mi, se, mic⟩ := d
  simp only [validDT] at h
  obtain ⟨h1, h2, h3, h4, h5, h6, h7, h8, h9, h10⟩ := h
  have hy : y < 10 ^ 4 := by omega
  have hmo : mo < 10 ^ 2 := by omega
  have hdy : dy < 10 ^ 2 := by
    have := daysInMonth_le y mo
    omega
  have hhh : hh < 10 ^ 2 := by omega
  have hmi : mi < 10 ^ 2 := by omega
  have hse : se < 10 ^ 2 := by omega
  have hmic : mic < 10 ^ 6 := by omega
  have hcond : 1 ≤ y ∧ 1 ≤ mo ∧ mo ≤ 12 ∧ 1 ≤ dy ∧ dy ≤ daysInMonth y mo ∧
      hh ≤ 23 ∧ mi ≤ 59 ∧ se ≤ 59 := ⟨h1, h3, h4, h5, h6, h7, h8, h9⟩
  by_cases hm0 : mic = 0
  · simp [pyFromIso, pyIsoformat, parseTimePart, expectChar, hm0,
      readN_emit _ y _ hy, readN_emit _ mo _ hmo, readN_emit _ dy _ hdy,
      readN_emit _ hh _ hhh, readN_emit _ mi _ hmi, hcond,
      readN_emit_nil 2 se hse]
  · simp [pyFromIso, pyIsoformat, parseTimePart, expectChar, hm0,
      readN_emit _ y _ hy, readN_emit _ mo _ hmo, readN_emit _ dy _ hdy,
      readN_emit _ hh _ hhh, readN_emit _ mi _ hmi, readN_emit _ se _ hse, hcond,
      readN_emit_nil 6 mic hmic]

/-- C9: every `isoformat` timestamp the system produces survives the
sanitize-then-recover round trip (colons to hyphens for path safety, then
rejoining the last two hyphen-separated pieces with colons), and the recovered
string parses as the original ISO-8601 date-time. -/
theorem c9_theorem (d : PyDateTime) (h : validDT d) :
    isoFromDir (replaceList [':'] ['-'] (pyIsoformat d)) = pyIsoformat d ∧
    pyFromIso (pyIsoformat d) = some d :=
  ⟨iso_sanitize_recover d, pyFromIso_isoformat d h⟩

/-- C9 witness: the round trip at a concrete timestamp. -/
theorem c9_witness :
    isoFromDir (replaceList [':'] ['-']
        (pyIsoformat ⟨2024, 3, 5, 10, 57, 4, 123456⟩)) =
      pyIsoformat ⟨2024, 3, 5, 10, 57, 4, 123456⟩ ∧
    pyFromIso (pyIsoformat ⟨2024, 3, 5, 10, 57, 4, 123456⟩) =
      some ⟨2024, 3, 5, 10, 57, 4, 123456⟩ :=
  c9_theorem ⟨2024, 3, 5, 10, 57, 4, 123456⟩ (by
    refine ⟨by norm_num, by norm_num, by norm_num, by norm_num, by norm_num, ?_,
      by norm_num, by norm_num, by norm_num, by norm_num⟩
    decide)

/-! ## C8: duplicate result file in single-result mode -/

theorem except_error_bind {ε α β : Type} (e : ε) (f : α → Except ε β) :
    (Except.error e : Except ε α) >>= f = Except.error e := rfl

theorem except_ok_bind {ε α β : Type} (a : α) (f : α → Except ε β) :
    (Except.ok a : Except ε α) >>= f = f a := rfl

theorem alFind?_alSet_self {α : Type} (cm : List (Str × α)) (k : Str) (v : α) :
    alFind? (alSet cm k v) k = some v := by
  induction cm with
  | nil => simp [alSet, alFind?]
  | cons p rest ih =>
    obtain ⟨a, b⟩ := p
    by_cases hk : a = k
    · subst hk
      simp [alSet, alFind?]
    · simp [alSet, alFind?, hk, ih]

theorem alFind?_alSet_ne {α : Type} (cm : List (Str × α)) (k k' : Str) (v : α)
    (h : ¬ k = k') : alFind? (alSet cm k v) k' = alFind? cm k' := by
  induction cm with
  | nil => simp [alSet, alFind?, h]
  | cons p rest ih =>
    obtain ⟨a, b⟩ := p
    by_cases hk : a = k
    · subst hk
      simp [alSet, alFind?, h]
    · by_cases hk' : a = k'
      · subst hk'
        simp [alSet, alFind?, hk]
      · simp [alSet, alFind?, hk, hk', ih]

theorem alContains_alSet_self {α : Type} (cm : List (Str × α)) (k : Str) (v : α) :
    alContains (alSet cm k v) k = true := by
  simp [alContains, alFind?_alSet_self]

theorem alContains_alSet_mono {α : Type} (cm : List (Str × α)) (k k' : Str) (v : α)
    (h : alContains cm k' = true) : alContains (alSet cm k v) k' = true := by
  by_cases hk : k = k'
  · subst hk; exact alContains_alSet_self cm k v
  · simpa [alContains, alFind?_alSet_ne cm k k' v hk] using h

theorem alContains_appendEntry_mono (cm : CardMetadata) (t t' : Str) (e : SplitEntry)
    (h : alContains cm t' = true) : alContains (appendEntry cm t e) t' = true :=
  alContains_alSet_mono _ _ _ _ h

theorem alContains_mergeOrAppendSplit_mono (cm : CardMetadata) (t s p t' : Str)
    (h : alContains cm t' = true) :
    alContains (mergeOrAppendSplit cm t s p) t' = true := by
  simp only [mergeOrAppendSplit]
  split_ifs <;> exact alContains_alSet_mono _ _ _ _ h

theorem alContains_specialUpdate_mono (cm : CardMetadata) (t s p t' : Str)
    (h : alContains cm t' = true) : alContains (specialUpdate cm t s p) t' = true := by
  simp only [specialUpdate]
  split_ifs
  all_goals
    first
      | exact alContains_alSet_mono _ _ _ _ h
      | exact alContains_mergeOrAppendSplit_mono _ _ _ _ _ h

theorem alContains_specialStepOne_mono (tn st sed slast q : Str) (cm : CardMetadata)
    (sp : Str) (t' : Str) (h : alContains cm t' = true) :
    alContains (specialStepOne tn st sed slast q cm sp) t' = true := by
  simp only [specialStepOne]
  split_ifs
  all_goals
    first
      | exact h
      | exact alContains_specialUpdate_mono _ _ _ _ _ h
      | exact alContains_mergeOrAppendSplit_mono _ _ _ _ _
          (alContains_specialUpdate_mono _ _ _ _ _ h)

theorem alContains_specialFold_mono (tn st sed slast q : Str) (sps : List Str)
    (cm : CardMetadata) (t' : Str) (h : alContains cm t' = true) :
    alContains (sps.foldl (specialStepOne tn st sed slast q) cm) t' = true := by
  induction sps generalizing cm with
  | nil => exact h
  | cons sp rest ih =>
    exact ih _ (alContains_specialStepOne_mono tn st sed slast q cm sp t' h)

theorem alContains_latestUpdate_mono (cm : CardMetadata) (st sed slast q t' : Str)
    (h : alContains cm t' = true) :
    alContains (latestUpdate cm st sed slast q) t' = true := by
  unfold latestUpdate
  split_ifs
  · exact alContains_appendEntry_mono _ _ _ _ h
  · exact h

theorem mainConfigUpdate_ok_mono (mult : Bool) (cm cm1 : CardMetadata)
    (st sed q t' : Str) (h : mainConfigUpdate mult cm st sed q = Except.ok cm1)
    (hc : alContains cm t' = true) : alContains cm1 t' = true := by
  unfold mainConfigUpdate at h
  split_ifs at h with h1 h2
  all_goals
    first
      | exact Except.noConfusion h
      | (obtain rfl := Except.ok.inj h
         first
           | exact alContains_appendEntry_mono _ _ _ _ hc
           | exact alContains_alSet_mono _ _ _ _ hc)

theorem pass2Step_ok_mono (mult : Bool) (lastIso : List (Str × Str)) (maxIso : Str)
    (cm cm' : CardMetadata) (f : Str) (t' : Str)
    (h : pass2Step mult lastIso maxIso cm f = Except.ok cm')
    (hc : alContains cm t' = true) : alContains cm' t' = true := by
  simp only [pass2Step] at h
  split_ifs at h with h1
  · revert h
    cases hm : mainConfigUpdate mult cm ("results".toList)
        (sanitizeWDot (replaceList (".parquet".toList) []
          (replaceList ("results_".toList) [] (basename f)))) (basename f) with
    | error e => intro h; exact Except.noConfusion h
    | ok cm1 =>
      intro h
      obtain rfl := Except.ok.inj h
      exact alContains_latestUpdate_mono _ _ _ _ _ _
        (mainConfigUpdate_ok_mono _ _ _ _ _ _ _ hm hc)
  · revert h
    cases hfind : alFind? lastIso (detailTaskPass2 f) with
    | none => intro h; exact Except.noConfusion h
    | some li =>
      cases hm : mainConfigUpdate mult cm (sanitizeW (detailTaskPass2 f))
          (sanitizeWDot (dirname f)) ("**/".toList ++ basename f) with
      | error e => intro h; exact Except.noConfusion h
      | ok cm1 =>
        intro h
        obtain rfl := Except.ok.inj h
        exact alContains_specialFold_mono _ _ _ _ _ _ _ _
          (alContains_latestUpdate_mono _ _ _ _ _ _
            (mainConfigUpdate_ok_mono _ _ _ _ _ _ _ hm hc))

theorem pass2_fold_ok_mono (mult : Bool) (lastIso : List (Str × Str)) (maxIso : Str)
    (fs : List Str) (cm cm' : CardMetadata) (t' : Str)
    (h : fs.foldlM (pass2Step mult lastIso maxIso) cm = Except.ok cm')
    (hc : alContains cm t' = true) : alContains cm' t' = true := by
  induction fs generalizing cm with
  | nil => exact Except.ok.inj h ▸ hc
  | cons f rest ih =>
    rw [List.foldlM_cons] at h
    cases hstep : pass2Step mult lastIso maxIso cm f with
    | error e => rw [hstep, except_error_bind] at h; exact absurd h (by simp)
    | ok cm1 =>
      rw [hstep, except_ok_bind] at h
      exact ih _ h (pass2Step_ok_mono _ _ _ _ _ _ _ hstep hc)

/-- A results-parquet file processed without error in single-result mode
leaves `results` present in the configuration. -/
theorem pass2Step_results_contains (lastIso : List (Str × Str)) (maxIso : Str)
    (cm cm' : CardMetadata) (f : Str)
    (hf : containsSub f ("results_".toList) = true)
    (h : pass2Step false lastIso maxIso cm f = Except.ok cm') :
    alContains cm' ("results".toList) = true := by
  simp only [pass2Step, hf, if_true] at h
  revert h
  cases hm : mainConfigUpdate false cm ("results".toList)
      (sanitizeWDot (replaceList (".parquet".toList) []
        (replaceList ("results_".toList) [] (basename f)))) (basename f) with
  | error e => intro h; exact Except.noConfusion h
  | ok cm1 =>
    intro h
    obtain rfl := Except.ok.inj h
    unfold mainConfigUpdate at hm
    simp only [Bool.false_eq_true, if_false] at hm
    split_ifs at hm with h1
    all_goals
      first
        | exact Except.noConfusion hm
        | (obtain rfl := Except.ok.inj hm
           exact alContains_latestUpdate_mono _ _ _ _ _ _ (alContains_alSet_self _ _ _))

/-- A results-parquet file hitting a configuration that already has a
`results` entry in single-result mode is the fatal duplicate-entry error. -/
theorem pass2Step_results_conflict (lastIso : List (Str × Str)) (maxIso : Str)
    (cm : CardMetadata) (f : Str)
    (hf : containsSub f ("results_".toList) = true)
    (hc : alContains cm ("results".toList) = true) :
    pass2Step false lastIso maxIso cm f =
      Except.error (RecErr.valueError ("results".toList)) := by
  have hm : mainConfigUpdate false cm ("results".toList)
      (sanitizeWDot (replaceList (".parquet".toList) []
        (replaceList ("results_".toList) [] (basename f)))) (basename f) =
      Except.error (RecErr.valueError ("results".toList)) := by
    unfold mainConfigUpdate
    rw [if_neg (by simp), if_pos hc]
  simp only [pass2Step, hf, if_true, hm]

/-- After an error-free prefix containing one results file, single-result mode
keeps `results` in the accumulated configuration. -/
theorem pass2_fold_results_contains (lastIso : List (Str × Str)) (maxIso : Str)
    (fs : List Str) (cm cm' : CardMetadata)
    (h : fs.foldlM (pass2Step false lastIso maxIso) cm = Except.ok cm')
    (r : Str) (hr : r ∈ fs) (hrf : containsSub r ("results_".toList) = true) :
    alContains cm' ("results".toList) = true := by
  induction fs generalizing cm with
  | nil => exact absurd hr (by simp)
  | cons f rest ih =>
    rw [List.foldlM_cons] at h
    cases hstep : pass2Step false lastIso maxIso cm f with
    | error e => rw [hstep, except_error_bind] at h; exact absurd h (by simp)
    | ok cm1 =>
      rw [hstep, except_ok_bind] at h
      rcases List.mem_cons.mp hr with he | hm
      · subst he
        exact pass2_fold_ok_mono _ _ _ _ _ _ _ h
          (pass2Step_results_contains _ _ _ _ _ hrf hstep)
      · exact ih _ h hm

/-- C8: in single-result mode (at most one result `.json` in the listing, so
one result file expected), when configuration building is reached (first pass
and global maximum succeed) and a second results-parquet file is encountered
after an error-free prefix containing a first one, the whole reconciliation
fails with the duplicate-entry conflict on `results` — no configuration
document is produced, whatever files follow. -/
theorem c8_theorem (l : List Str) (pre post : List Str) (r2 : Str)
    (last : List (Str × PyDateTime)) (mx : PyDateTime) (cm1 : CardMetadata)
    (hsingle : (l.filter (fun f => containsSub f (".json".toList))).length ≤ 1)
    (hsplit : l.filter (fun f => containsSub f (".parquet".toList)) = pre ++ r2 :: post)
    (hr2 : containsSub r2 ("results_".toList) = true)
    (r1 : Str) (hr1m : r1 ∈ pre) (hr1 : containsSub r1 ("results_".toList) = true)
    (hp1 : pass1 (pre ++ r2 :: post) = Except.ok last)
    (hmx : maxDate last = some mx)
    (hpre : pre.foldlM (pass2Step false (last.map (fun p => (p.1, pyIsoformat p.2)))
        (pyIsoformat mx)) [] = Except.ok cm1) :
    recreate_metadata_card l = Except.error (RecErr.valueError ("results".toList)) := by
  have hc : alContains cm1 ("results".toList) = true :=
    pass2_fold_results_contains _ _ pre [] cm1 hpre r1 hr1m hr1
  have hmult : decide ((l.filter (fun f => containsSub f (".json".toList))).length > 1)
      = false := by
    simp only [decide_eq_false_iff_not, gt_iff_lt, not_lt]
    exact hsingle
  simp only [recreate_metadata_card, hsplit, hmult, pass1] at *
  rw [hp1]
  simp only [hmx]
  rw [List.foldlM_append, hpre, except_ok_bind, List.foldlM_cons,
    pass2Step_results_conflict _ _ _ _ hr2 hc, except_error_bind]

/-- C8 witness: a listing with one detail file and two results-parquet files
(and no `.json`, so single-result mode) aborts with the `results` conflict. -/
theorem c8_witness :
    recreate_metadata_card
        ["x/results_2024-01-01T00-00-00.123456.parquet".toList,
         "y/results_2024-02-02T00-00-00.123456.parquet".toList, fileJan] =
      Except.error (RecErr.valueError ("results".toList)) :=
  c8_theorem
    ["x/results_2024-01-01T00-00-00.123456.parquet".toList,
     "y/results_2024-02-02T00-00-00.123456.parquet".toList, fileJan]
    ["x/results_2024-01-01T00-00-00.123456.parquet".toList]
    [fileJan]
    ("y/results_2024-02-02T00-00-00.123456.parquet".toList)
    [(("mmlu:us_history".toList), ⟨2024, 1, 1, 0, 0, 0, 123456⟩)]
    ⟨2024, 1, 1, 0, 0, 0, 123456⟩
    [(("results".toList),
      [⟨"2024_01_01T00_00_00.123456".toList,
        ["results_2024-01-01T00-00-00.123456.parquet".toList]⟩,
       ⟨"latest".toList,
        ["results_2024-01-01T00-00-00.123456.parquet".toList]⟩])]
    (by decide) (by decide) (by decide)
    ("x/results_2024-01-01T00-00-00.123456.parquet".toList) (by decide) (by decide)
    (by decide) (by decide) (by decide)

/-! ## Flattening a configuration document into (config, split, path) triples

The delta machinery: every successful `pass2Step` changes the flattened
triple multiset of the configuration by a fixed per-file contribution, which
is what makes the accumulated configuration order-independent up to ordering. -/

/-- The triples contributed by one split entry of a config. -/
def entryTriples (name : Str) (e : SplitEntry) : List (Str × Str × Str) :=
  e.path.map (fun p => (name, e.split, p))

/-- The triples contributed by one config's `data_files` list. -/
def configTriples (name : Str) (es : DataFiles) : List (Str × Str × Str) :=
  es.flatMap (entryTriples name)

/-- All (config name, split name, path) triples of a configuration document. -/
def flatten (cm : CardMetadata) : List (Str × Str × Str) :=
  cm.flatMap (fun p => configTriples p.1 p.2)

/-- The special-group triples one detail file contributes for one element of
`SPECIAL_TASKS` (mirrors `specialStepOne`). -/
def deltaSpecial (task_name sanitized_task sed slast repo_file_name special_task : Str) :
    List (Str × Str × Str) :=
  let sst0 := sanitizeW special_task
  if containsSub sanitized_task sst0 then
    let sst := specialTaskName sst0 task_name
    (sst, sed, repo_file_name) ::
      (if sed == slast then [(sst, ("latest".toList), repo_file_name)] else [])
  else []

/-- The triples one parquet file contributes to the configuration when its
`pass2Step` succeeds (mirrors `pass2Step`; independent of `multiple_results`
and of the configuration state). -/
def deltaFile (lastIso : List (Str × Str)) (maxIso : Str) (f : Str) :
    List (Str × Str × Str) :=
  if containsSub f ("results_".toList) then
    let sed := sanitizeWDot (replaceList (".parquet".toList) []
      (replaceList ("results_".toList) [] (basename f)))
    let slast := sanitizeWDot maxIso
    let bn := basename f
    (("results".toList), sed, bn) ::
      (if sed == slast then [(("results".toList), ("latest".toList), bn)] else [])
  else
    match alFind? lastIso (detailTaskPass2 f) with
    | none => []
    | some li =>
      let tn := detailTaskPass2 f
      let st := sanitizeW tn
      let sed := sanitizeWDot (dirname f)
      let slast := sanitizeWDot li
      let q := ("**/".toList) ++ basename f
      ((st, sed, q) :: (if sed == slast then [(st, ("latest".toList), q)] else [])) ++
        SPECIAL_TASKS.flatMap (deltaSpecial tn st sed slast q)

theorem alSet_cons_self {α : Type} (a : Str) (v v2 : α) (rest : List (Str × α)) :
    alSet ((a, v) :: rest) a v2 = (a, v2) :: rest := by
  simp [alSet]

theorem alSet_cons_ne {α : Type} (a : Str) (v v2 : α) (rest : List (Str × α))
    (t : Str) (h : ¬ a = t) : alSet ((a, v) :: rest) t v2 = (a, v) :: alSet rest t v2 := by
  simp [alSet, h]

theorem flatten_cons (a : Str) (es : DataFiles) (l : CardMetadata) :
    flatten ((a, es) :: l) = configTriples a es ++ flatten l := by
  simp [flatten]

theorem alGetD_cons_self (a : Str) (es : DataFiles) (rest : CardMetadata) :
    alGetD ((a, es) :: rest) a [] = es := by
  simp [alGetD, alFind?]

theorem alGetD_cons_ne (a : Str) (es : DataFiles) (rest : CardMetadata) (t : Str)
    (h : ¬ a = t) : alGetD ((a, es) :: rest) t [] = alGetD rest t [] := by
  simp [alGetD, alFind?, h]

theorem configTriples_append (t : Str) (es1 es2 : DataFiles) :
    configTriples t (es1 ++ es2) = configTriples t es1 ++ configTriples t es2 := by
  simp [configTriples]

theorem mcoe_append {α : Type} (l1 l2 : List α) :
    ((l1 ++ l2 : List α) : Multiset α) = (l1 : Multiset α) + (l2 : Multiset α) :=
  Multiset.coe_add l1 l2

theorem flatten_alSet_absent (cm : CardMetadata) (t : Str) (es2 : DataFiles)
    (h : alContains cm t = false) :
    flatten (alSet cm t es2) = flatten cm ++ configTriples t es2 := by
  induction cm with
  | nil => simp [flatten, alSet]
  | cons p rest ih =>
    obtain ⟨a, es⟩ := p
    by_cases ha : a = t
    · subst ha
      exact absurd h (by simp [alContains, alFind?])
    · have hrest : alContains rest t = false := by
        simpa [alContains, alFind?, ha] using h
      rw [alSet_cons_ne _ _ _ _ _ ha, flatten_cons, flatten_cons, ih hrest,
        List.append_assoc]

theorem flatten_appendData (cm : CardMetadata) (t : Str) (es2 : DataFiles) :
    (flatten (alSet cm t (alGetD cm t [] ++ es2)) : Multiset (Str × Str × Str)) =
      (flatten cm : Multiset (Str × Str × Str)) + (configTriples t es2 : List _) := by
  induction cm with
  | nil => simp [flatten, alSet, alGetD, alFind?, configTriples]
  | cons p rest ih =>
    obtain ⟨a, es⟩ := p
    by_cases ha : a = t
    · subst ha
      rw [alGetD_cons_self, alSet_cons_self, flatten_cons, flatten_cons,
        configTriples_append]
      simp only [mcoe_append]
      abel
    · rw [alGetD_cons_ne _ _ _ _ ha, alSet_cons_ne _ _ _ _ _ ha, flatten_cons,
        flatten_cons]
      simp only [mcoe_append]
      rw [ih]
      abel

theorem mcoe_cons {α : Type} (a : α) (l : List α) :
    ((a :: l : List α) : Multiset α) = {a} + (l : Multiset α) := by
  rw [show a :: l = [a] ++ l from rfl, mcoe_append]
  simp

theorem configTriples_cons (t : Str) (e : SplitEntry) (rest : DataFiles) :
    configTriples t (e :: rest) = entryTriples t e ++ configTriples t rest := by
  simp [configTriples]

theorem configTriples_addToFirstSplit (t s p : Str) (es : DataFiles)
    (h : hasSplitNamed es s = true) :
    ((configTriples t (addToFirstSplit es s p)) : Multiset (Str × Str × Str)) =
      (configTriples t es : List (Str × Str × Str)) +
        ({(t, s, p)} : Multiset (Str × Str × Str)) := by
  induction es with
  | nil => simp [hasSplitNamed] at h
  | cons e rest ih =>
    obtain ⟨sp, paths⟩ := e
    by_cases he : sp = s
    · subst he
      rw [show addToFirstSplit (⟨sp, paths⟩ :: rest) sp p =
            ⟨sp, paths ++ [p]⟩ :: rest from by simp [addToFirstSplit]]
      rw [configTriples_cons, configTriples_cons,
        show entryTriples t ⟨sp, paths ++ [p]⟩ =
          entryTriples t ⟨sp, paths⟩ ++ [(t, sp, p)] from by simp [entryTriples]]
      simp only [mcoe_append]
      have hsing : (([(t, sp, p)] : List (Str × Str × Str)) :
          Multiset (Str × Str × Str)) = {(t, sp, p)} := by simp
      rw [hsing]
      abel
    · have h' : hasSplitNamed rest s = true := by
        simpa [hasSplitNamed, he] using h
      rw [show addToFirstSplit (⟨sp, paths⟩ :: rest) s p =
            ⟨sp, paths⟩ :: addToFirstSplit rest s p from by simp [addToFirstSplit, he]]
      rw [configTriples_cons, configTriples_cons]
      simp only [mcoe_append]
      rw [ih h']
      abel

theorem flatten_alSet_addToFirstSplit (cm : CardMetadata) (t s p : Str)
    (h : hasSplitNamed (alGetD cm t []) s = true) :
    (flatten (alSet cm t (addToFirstSplit (alGetD cm t []) s p))
        : Multiset (Str × Str × Str)) =
      (flatten cm : List (Str × Str × Str)) +
        ({(t, s, p)} : Multiset (Str × Str × Str)) := by
  induction cm with
  | nil => simp [alGetD, alFind?, hasSplitNamed] at h
  | cons pr rest ih =>
    obtain ⟨a, es⟩ := pr
    by_cases ha : a = t
    · subst ha
      rw [alGetD_cons_self] at h ⊢
      rw [alSet_cons_self, flatten_cons, flatten_cons]
      simp only [mcoe_append]
      rw [configTriples_addToFirstSplit _ _ _ _ h]
      abel
    · rw [alGetD_cons_ne _ _ _ _ ha] at h ⊢
      rw [alSet_cons_ne _ _ _ _ _ ha, flatten_cons, flatten_cons]
      simp only [mcoe_append]
      rw [ih h]
      abel

theorem flatten_mergeOrAppendSplit (cm : CardMetadata) (t s p : Str) :
    (flatten (mergeOrAppendSplit cm t s p) : Multiset (Str × Str × Str)) =
      (flatten cm : List (Str × Str × Str)) +
        ({(t, s, p)} : Multiset (Str × Str × Str)) := by
  simp only [mergeOrAppendSplit]
  split_ifs with h
  · exact flatten_alSet_addToFirstSplit cm t s p h
  · rw [flatten_appendData cm t [⟨s, [p]⟩]]
    simp [configTriples, entryTriples]

theorem flatten_specialUpdate (cm : CardMetadata) (sst sed p : Str) :
    (flatten (specialUpdate cm sst sed p) : Multiset (Str × Str × Str)) =
      (flatten cm : List (Str × Str × Str)) +
        ({(sst, sed, p)} : Multiset (Str × Str × Str)) := by
  simp only [specialUpdate]
  split_ifs with h
  all_goals
    first
      | exact flatten_mergeOrAppendSplit cm sst sed p
      | (rw [flatten_alSet_absent _ _ _ (by simpa using h), mcoe_append]
         simp [configTriples, entryTriples])

theorem flatten_appendEntry (cm : CardMetadata) (t : Str) (e : SplitEntry) :
    (flatten (appendEntry cm t e) : Multiset (Str × Str × Str)) =
      (flatten cm : List (Str × Str × Str)) + (entryTriples t e : List _) := by
  unfold appendEntry
  rw [flatten_appendData]
  simp [configTriples]

theorem flatten_latestUpdate (cm : CardMetadata) (st sed slast q : Str) :
    (flatten (latestUpdate cm st sed slast q) : Multiset (Str × Str × Str)) =
      (flatten cm : List (Str × Str × Str)) +
        ((if sed == slast then [(st, ("latest".toList), q)] else []) : List _) := by
  unfold latestUpdate
  split_ifs with h
  · rw [flatten_appendEntry]
    simp [entryTriples]
  · simp

theorem flatten_specialStepOne (tn st sed slast q : Str) (cm : CardMetadata) (sp : Str) :
    (flatten (specialStepOne tn st sed slast q cm sp) : Multiset (Str × Str × Str)) =
      (flatten cm : List (Str × Str × Str)) +
        (deltaSpecial tn st sed slast q sp : List _) := by
  simp only [specialStepOne, deltaSpecial]
  split_ifs with h1 h2
  · rw [flatten_mergeOrAppendSplit, flatten_specialUpdate, mcoe_cons]
    have hsing : (([(specialTaskName (sanitizeW sp) tn, ("latest".toList), q)]
        : List (Str × Str × Str)) : Multiset (Str × Str × Str)) =
        {(specialTaskName (sanitizeW sp) tn, ("latest".toList), q)} := by simp
    rw [hsing]
    abel
  · rw [flatten_specialUpdate, mcoe_cons]
    simp
  · simp

theorem flatten_specialFold (tn st sed slast q : Str) (sps : List Str)
    (cm : CardMetadata) :
    (flatten (sps.foldl (specialStepOne tn st sed slast q) cm)
        : Multiset (Str × Str × Str)) =
      (flatten cm : List (Str × Str × Str)) +
        (sps.flatMap (deltaSpecial tn st sed slast q) : List _) := by
  induction sps generalizing cm with
  | nil => simp
  | cons sp rest ih =>
    rw [List.foldl_cons, ih, flatten_specialStepOne, List.flatMap_cons, mcoe_append]
    abel

theorem mainConfigUpdate_ok_flatten (mult : Bool) (cm cm1 : CardMetadata)
    (st sed q : Str) (h : mainConfigUpdate mult cm st sed q = Except.ok cm1) :
    (flatten cm1 : Multiset (Str × Str × Str)) =
      (flatten cm : List (Str × Str × Str)) +
        ({(st, sed, q)} : Multiset (Str × Str × Str)) := by
  unfold mainConfigUpdate at h
  split_ifs at h with h1 h2
  all_goals
    first
      | exact Except.noConfusion h
      | (obtain rfl := Except.ok.inj h
         first
           | (rw [flatten_appendEntry]; simp [entryTriples])
           | (rw [flatten_alSet_absent _ _ _ (by simp_all), mcoe_append]
              simp [configTriples, entryTriples]))

theorem pass2Step_ok_flatten (mult : Bool) (li : List (Str × Str)) (mi : Str)
    (cm cm' : CardMetadata) (f : Str)
    (h : pass2Step mult li mi cm f = Except.ok cm') :
    (flatten cm' : Multiset (Str × Str × Str)) =
      (flatten cm : List (Str × Str × Str)) + (deltaFile li mi f : List _) := by
  simp only [pass2Step] at h
  split_ifs at h with h1
  · revert h
    cases hm : mainConfigUpdate mult cm ("results".toList)
        (sanitizeWDot (replaceList (".parquet".toList) []
          (replaceList ("results_".toList) [] (basename f)))) (basename f) with
    | error e => intro h; exact Except.noConfusion h
    | ok cm1 =>
      intro h
      obtain rfl := Except.ok.inj h
      rw [flatten_latestUpdate, mainConfigUpdate_ok_flatten _ _ _ _ _ _ hm]
      have hd : deltaFile li mi f =
          (("results".toList),
            sanitizeWDot (replaceList (".parquet".toList) []
              (replaceList ("results_".toList) [] (basename f))), basename f) ::
          (if sanitizeWDot (replaceList (".parquet".toList) []
              (replaceList ("results_".toList) [] (basename f))) == sanitizeWDot mi then
            [(("results".toList), ("latest".toList), basename f)] else []) := by
        unfold deltaFile
        rw [if_pos h1]
      rw [hd, mcoe_cons]
      abel
  · revert h
    cases hfind : alFind? li (detailTaskPass2 f) with
    | none => intro h; exact Except.noConfusion h
    | some liso =>
      cases hm : mainConfigUpdate mult cm (sanitizeW (detailTaskPass2 f))
          (sanitizeWDot (dirname f)) ("**/".toList ++ basename f) with
      | error e => intro h; exact Except.noConfusion h
      | ok cm1 =>
        intro h
        obtain rfl := Except.ok.inj h
        rw [flatten_specialFold, flatten_latestUpdate,
          mainConfigUpdate_ok_flatten _ _ _ _ _ _ hm]
        have hd : deltaFile li mi f =
            ((sanitizeW (detailTaskPass2 f), sanitizeWDot (dirname f),
                ("**/".toList) ++ basename f) ::
              (if sanitizeWDot (dirname f) == sanitizeWDot liso then
                [(sanitizeW (detailTaskPass2 f), ("latest".toList),
                  ("**/".toList) ++ basename f)] else [])) ++
              SPECIAL_TASKS.flatMap (deltaSpecial (detailTaskPass2 f)
                (sanitizeW (detailTaskPass2 f)) (sanitizeWDot (dirname f))
                (sanitizeWDot liso) (("**/".toList) ++ basename f)) := by
          unfold deltaFile
          rw [if_neg h1, hfind]
        rw [hd, mcoe_append, mcoe_cons]
        abel

theorem pass2_fold_flatten (mult : Bool) (li : List (Str × Str)) (mi : Str)
    (fs : List Str) (cm cm' : CardMetadata)
    (h : fs.foldlM (pass2Step mult li mi) cm = Except.ok cm') :
    (flatten cm' : Multiset (Str × Str × Str)) =
      (flatten cm : List (Str × Str × Str)) +
        (fs.flatMap (deltaFile li mi) : List _) := by
  induction fs generalizing cm with
  | nil =>
    obtain rfl := Except.ok.inj h
    simp
  | cons f rest ih =>
    rw [List.foldlM_cons] at h
    cases hstep : pass2Step mult li mi cm f with
    | error e => rw [hstep, except_error_bind] at h; exact Except.noConfusion h
    | ok cm1 =>
      rw [hstep, except_ok_bind] at h
      rw [ih _ h, pass2Step_ok_flatten _ _ _ _ _ _ hstep, List.flatMap_cons, mcoe_append]
      abel

/-! ## The first pass as a pure fold, and what its registry computes -/

/-- The parsed timestamp of a detail file's directory (lines 323-325). -/
def parseDir (f : Str) : Option PyDateTime :=
  pyFromIso (isoFromDir (dirname f))

/-- One first-pass iteration, with the parse failure dropped: on inputs where
`pass1` succeeds the two agree. -/
def pass1PureStep (acc : List (Str × PyDateTime)) (f : Str) :
    List (Str × PyDateTime) :=
  if containsSub f ("results_".toList) then acc
  else
    match parseDir f with
    | none => acc
    | some d => updateMax acc (detailTaskPass1 f) d

/-- The first-pass registry as a pure function of the parquet listing. -/
def pass1Pure (fs : List Str) : List (Str × PyDateTime) :=
  fs.foldl pass1PureStep []

theorem pass1_ok_eq_pure (fs : List Str) (acc m : List (Str × PyDateTime))
    (h : fs.foldlM pass1Step acc = Except.ok m) : m = fs.foldl pass1PureStep acc := by
  induction fs generalizing acc with
  | nil => exact (Except.ok.inj h).symm
  | cons f rest ih =>
    rw [List.foldlM_cons] at h
    rw [List.foldl_cons]
    by_cases hr : containsSub f ("results_".toList) = true
    · have h1 : pass1Step acc f = Except.ok acc := by
        unfold pass1Step; rw [if_pos hr]
      have h2 : pass1PureStep acc f = acc := by
        unfold pass1PureStep; rw [if_pos hr]
      rw [h1, except_ok_bind] at h
      rw [h2]
      exact ih _ h
    · cases hp : pyFromIso (isoFromDir (dirname f)) with
      | none =>
        have h1 : pass1Step acc f = Except.error (RecErr.parseError f) := by
          unfold pass1Step; rw [if_neg hr, hp]
        rw [h1, except_error_bind] at h
        exact Except.noConfusion h
      | some d =>
        have h1 : pass1Step acc f = Except.ok (updateMax acc (detailTaskPass1 f) d) := by
          unfold pass1Step; rw [if_neg hr, hp]
        have h2 : pass1PureStep acc f = updateMax acc (detailTaskPass1 f) d := by
          unfold pass1PureStep parseDir; rw [if_neg hr, hp]
        rw [h1, except_ok_bind] at h
        rw [h2]
        exact ih _ h

theorem alFind?_append {α : Type} (l1 l2 : List (Str × α)) (k : Str) :
    alFind? (l1 ++ l2) k =
      match alFind? l1 k with
      | some v => some v
      | none => alFind? l2 k := by
  induction l1 with
  | nil => simp [alFind?]
  | cons p rest ih =>
    obtain ⟨a, b⟩ := p
    by_cases ha : a = k
    · subst ha; simp [alFind?]
    · simp [alFind?, ha, ih]

theorem alFind?_mapAdjust (acc : List (Str × PyDateTime)) (t : Str) (d : PyDateTime)
    (t' : Str) :
    alFind? (acc.map (fun p => if p.1 == t then (p.1, pymax p.2 d) else p)) t' =
      if t = t' then (alFind? acc t').map (fun v => pymax v d)
      else alFind? acc t' := by
  induction acc with
  | nil => by_cases ht : t = t' <;> simp [alFind?, ht]
  | cons p rest ih =>
    obtain ⟨a, b⟩ := p
    by_cases hat : a = t
    · subst hat
      by_cases hat' : a = t'
      · subst hat'
        simp [alFind?]
      · have hne : ¬ a = t' := hat'
        simp only [List.map_cons, beq_self_eq_true, if_true]
        rw [show alFind? ((a, pymax b d) :: List.map
            (fun p => if p.1 == a then (p.1, pymax p.2 d) else p) rest) t' =
          alFind? (List.map (fun p => if p.1 == a then (p.1, pymax p.2 d) else p) rest) t'
          from by simp [alFind?, hne]]
        rw [ih]
        simp [alFind?, hne]
    · by_cases hat' : a = t'
      · subst hat'
        have hta : ¬ t = a := fun he => hat he.symm
        simp [alFind?, hat, hta]
      · have hf : ((a, b) :: rest).map (fun p => if p.1 == t then (p.1, pymax p.2 d) else p)
            = (a, b) :: rest.map (fun p => if p.1 == t then (p.1, pymax p.2 d) else p) := by
          simp [hat]
        have hhead : alFind? ((a, b) :: rest) t' = alFind? rest t' := by
          simp [alFind?, hat']
        rw [hf, hhead]
        have hstep : alFind? ((a, b) ::
              rest.map (fun p => if p.1 == t then (p.1, pymax p.2 d) else p)) t' =
            alFind? (rest.map (fun p => if p.1 == t then (p.1, pymax p.2 d) else p)) t' := by
          simp [alFind?, hat']
        rw [hstep]
        exact ih

theorem alContains_some {α : Type} (acc : List (Str × α)) (t : Str)
    (h : alContains acc t = true) : ∃ v, alFind? acc t = some v := by
  unfold alContains at h
  cases hv : alFind? acc t with
  | none => rw [hv] at h; simp at h
  | some v => exact ⟨v, rfl⟩

theorem alContains_none {α : Type} (acc : List (Str × α)) (t : Str)
    (h : alContains acc t = false) : alFind? acc t = none := by
  unfold alContains at h
  cases hv : alFind? acc t with
  | none => rfl
  | some v => rw [hv] at h; simp at h

/-- The dates merged by `updateMax`, as seen through lookups. -/
theorem alFind?_updateMax (acc : List (Str × PyDateTime)) (t : Str) (d : PyDateTime)
    (t' : Str) :
    alFind? (updateMax acc t d) t' =
      if t = t' then
        some (match alFind? acc t' with
              | none => d
              | some v => pymax v d)
      else alFind? acc t' := by
  unfold updateMax
  by_cases hc : alContains acc t = true
  · rw [if_pos hc, alFind?_mapAdjust]
    by_cases ht : t = t'
    · subst ht
      obtain ⟨v, hv⟩ := alContains_some acc t hc
      simp [hv]
    · simp [ht]
  · rw [if_neg hc]
    have hnone : alFind? acc t = none :=
      alContains_none acc t (by simpa using hc)
    rw [alFind?_append]
    by_cases ht : t = t'
    · subst ht
      rw [hnone]
      simp [alFind?]
    · cases hv : alFind? acc t' with
      | none => simp [alFind?, ht, if_neg ht]
      | some v => simp [ht]

/-- The timestamps the first pass attributes to task `t`. -/
def datesOf (fs : List Str) (t : Str) : List PyDateTime :=
  fs.filterMap (fun f =>
    if containsSub f ("results_".toList) then none
    else
      match parseDir f with
      | none => none
      | some d => if detailTaskPass1 f = t then some d else none)

/-- All timestamps of all detail files in the listing. -/
def allDatesOf (fs : List Str) : List PyDateTime :=
  fs.filterMap (fun f =>
    if containsSub f ("results_".toList) then none else parseDir f)

def optStep (o : Option PyDateTime) (d : PyDateTime) : Option PyDateTime :=
  match o with
  | none => some d
  | some m => some (pymax m d)

def optFoldPymax (o : Option PyDateTime) (ds : List PyDateTime) : Option PyDateTime :=
  ds.foldl optStep o

theorem pass1Pure_lookup_aux (fs : List Str) (acc : List (Str × PyDateTime)) (t : Str) :
    alFind? (fs.foldl pass1PureStep acc) t =
      optFoldPymax (alFind? acc t) (datesOf fs t) := by
  induction fs generalizing acc with
  | nil => rfl
  | cons f rest ih =>
    rw [List.foldl_cons]
    by_cases hr : containsSub f ("results_".toList) = true
    · have hs : pass1PureStep acc f = acc := by
        unfold pass1PureStep; rw [if_pos hr]
      have hd : datesOf (f :: rest) t = datesOf rest t := by
        unfold datesOf; rw [List.filterMap_cons, if_pos hr]
      rw [hs, hd]
      exact ih acc
    · cases hp : parseDir f with
      | none =>
        have hs : pass1PureStep acc f = acc := by
          unfold pass1PureStep; rw [if_neg hr, hp]
        have hd : datesOf (f :: rest) t = datesOf rest t := by
          unfold datesOf; rw [List.filterMap_cons, if_neg hr, hp]
        rw [hs, hd]
        exact ih acc
      | some d =>
        have hs : pass1PureStep acc f = updateMax acc (detailTaskPass1 f) d := by
          unfold pass1PureStep; rw [if_neg hr, hp]
        by_cases htask : detailTaskPass1 f = t
        · have hd : datesOf (f :: rest) t = d :: datesOf rest t := by
            unfold datesOf
            rw [List.filterMap_cons, if_neg hr, hp]
            simp [htask]
          rw [hs, hd, ih]
          have hlk : alFind? (updateMax acc (detailTaskPass1 f) d) t =
              optStep (alFind? acc t) d := by
            rw [alFind?_updateMax, if_pos htask]
            cases alFind? acc t <;> rfl
          rw [hlk]
          rfl
        · have hd : datesOf (f :: rest) t = datesOf rest t := by
            unfold datesOf
            rw [List.filterMap_cons, if_neg hr, hp]
            simp [htask]
          rw [hs, hd, ih]
          rw [alFind?_updateMax, if_neg htask]

/-! ## Permutation invariance of the registry and the global maximum -/

theorem pymax_idem (a : PyDateTime) : pymax a a = a := by
  unfold pymax
  exact ite_self a

theorem optStep_left_comm (o : Option PyDateTime) (a b : PyDateTime) :
    optStep (optStep o a) b = optStep (optStep o b) a := by
  cases o with
  | none =>
    simp only [optStep]
    rw [pymax_comm]
  | some m =>
    simp only [optStep]
    rw [pymax_assoc, pymax_assoc, pymax_comm a b]

theorem optStep_pymax (o : Option PyDateTime) (b d : PyDateTime) :
    optStep o (pymax b d) = optStep (optStep o b) d := by
  cases o with
  | none => rfl
  | some m =>
    simp only [optStep]
    rw [pymax_assoc]

theorem optStep_idem (o : Option PyDateTime) (d : PyDateTime) :
    optStep (optStep o d) d = optStep o d := by
  cases o with
  | none =>
    simp only [optStep]
    rw [pymax_idem]
  | some m =>
    simp only [optStep]
    rw [pymax_assoc, pymax_idem]

theorem optFold_pull (l : List PyDateTime) (o : Option PyDateTime) (d : PyDateTime) :
    optFoldPymax (optStep o d) l = optStep (optFoldPymax o l) d := by
  induction l generalizing o with
  | nil => rfl
  | cons x rest ih =>
    unfold optFoldPymax at *
    rw [List.foldl_cons, List.foldl_cons, optStep_left_comm]
    exact ih _

theorem optFold_perm {ds1 ds2 : List PyDateTime} (h : ds1.Perm ds2)
    (o : Option PyDateTime) : optFoldPymax o ds1 = optFoldPymax o ds2 := by
  induction h generalizing o with
  | nil => rfl
  | cons x _ ih =>
    unfold optFoldPymax at *
    rw [List.foldl_cons, List.foldl_cons]
    exact ih _
  | swap x y l =>
    unfold optFoldPymax
    rw [List.foldl_cons, List.foldl_cons, List.foldl_cons, List.foldl_cons,
      optStep_left_comm]
  | trans _ _ ih1 ih2 => exact (ih1 o).trans (ih2 o)

theorem optFold_some (l : List PyDateTime) (m : PyDateTime) :
    optFoldPymax (some m) l = some (l.foldl pymax m) := by
  induction l generalizing m with
  | nil => rfl
  | cons x rest ih =>
    unfold optFoldPymax at *
    rw [List.foldl_cons, List.foldl_cons]
    exact ih _

/-- The values column of the registry. -/
def vals (l : List (Str × PyDateTime)) : List PyDateTime :=
  l.map (fun p => p.2)

/-- The per-key raise of `updateMax` when the key is present. -/
def adjustBy (t : Str) (d : PyDateTime) (l : List (Str × PyDateTime)) :
    List (Str × PyDateTime) :=
  l.map (fun p => if p.1 == t then (p.1, pymax p.2 d) else p)

theorem maxDate_eq_optFold (l : List (Str × PyDateTime)) :
    maxDate l = optFoldPymax none (vals l) := by
  cases l with
  | nil => rfl
  | cons p rest =>
    obtain ⟨t0, d0⟩ := p
    have h0 : maxDate ((t0, d0) :: rest) =
        some (List.foldl (fun m q => pymax m q.2) d0 ((t0, d0) :: rest)) := rfl
    rw [h0, List.foldl_cons, pymax_idem]
    have h2 : optFoldPymax none (vals ((t0, d0) :: rest)) =
        optFoldPymax (some d0) (vals rest) := rfl
    rw [h2, optFold_some]
    unfold vals
    rw [List.foldl_map]

theorem alContains_cons_elim {α : Type} (a : Str) (b : α) (rest : List (Str × α))
    (t : Str) (h : alContains ((a, b) :: rest) t = false) :
    ¬ a = t ∧ alContains rest t = false := by
  by_cases ha : a = t
  · exfalso
    subst ha
    simp [alContains, alFind?] at h
  · refine ⟨ha, ?_⟩
    simp [alContains, alFind?, ha] at h
    simp [alContains, h]

theorem adjustBy_eq_self (l : List (Str × PyDateTime)) (t : Str) (d : PyDateTime)
    (h : alContains l t = false) : adjustBy t d l = l := by
  induction l with
  | nil => rfl
  | cons p rest ih =>
    obtain ⟨a, b⟩ := p
    obtain ⟨ha, hrest⟩ := alContains_cons_elim a b rest t h
    unfold adjustBy at *
    rw [List.map_cons, ih hrest]
    congr 1
    simp [ha]

theorem optFold_adjust (t : Str) (d : PyDateTime) :
    ∀ (l : List (Str × PyDateTime)), alContains l t = true → ∀ o : Option PyDateTime,
      optFoldPymax o (vals (adjustBy t d l)) = optStep (optFoldPymax o (vals l)) d := by
  intro l
  induction l with
  | nil => intro h; simp [alContains, alFind?] at h
  | cons p rest ih =>
    intro h o
    obtain ⟨a, b⟩ := p
    by_cases ha : a = t
    · have hhead : adjustBy t d ((a, b) :: rest) = (a, pymax b d) :: adjustBy t d rest := by
        unfold adjustBy
        rw [List.map_cons]
        congr 1
        simp [ha]
      rw [hhead]
      show optFoldPymax (optStep o (pymax b d)) (vals (adjustBy t d rest)) =
        optStep (optFoldPymax (optStep o b) (vals rest)) d
      rw [optStep_pymax]
      cases hrest : alContains rest t with
      | true =>
        rw [ih hrest, optFold_pull, optStep_idem]
      | false =>
        rw [adjustBy_eq_self rest t d hrest, optFold_pull]
    · have hrest : alContains rest t = true := by
        simp [alContains, alFind?, ha] at h
        simp [alContains, h]
      have hhead : adjustBy t d ((a, b) :: rest) = (a, b) :: adjustBy t d rest := by
        unfold adjustBy
        rw [List.map_cons]
        congr 1
        simp [ha]
      rw [hhead]
      show optFoldPymax (optStep o b) (vals (adjustBy t d rest)) =
        optStep (optFoldPymax (optStep o b) (vals rest)) d
      exact ih hrest _

theorem maxDate_updateMax (acc : List (Str × PyDateTime)) (t : Str) (d : PyDateTime) :
    maxDate (updateMax acc t d) = optStep (maxDate acc) d := by
  rw [maxDate_eq_optFold, maxDate_eq_optFold]
  unfold updateMax
  by_cases hc : alContains acc t = true
  · rw [if_pos hc]
    exact optFold_adjust t d acc hc none
  · rw [if_neg hc]
    have hv : vals (acc ++ [(t, d)]) = vals acc ++ [d] := by
      unfold vals
      rw [List.map_append]
      rfl
    rw [hv]
    unfold optFoldPymax
    rw [List.foldl_append]
    rfl

theorem maxDate_pass1Pure_aux : ∀ (fs : List Str) (acc : List (Str × PyDateTime)),
    maxDate (fs.foldl pass1PureStep acc) = optFoldPymax (maxDate acc) (allDatesOf fs) := by
  intro fs
  induction fs with
  | nil => intro acc; rfl
  | cons f rest ih =>
    intro acc
    rw [List.foldl_cons]
    by_cases hr : containsSub f ("results_".toList) = true
    · have hs : pass1PureStep acc f = acc := by
        unfold pass1PureStep; rw [if_pos hr]
      have hd : allDatesOf (f :: rest) = allDatesOf rest := by
        unfold allDatesOf; rw [List.filterMap_cons, if_pos hr]
      rw [hs, hd]
      exact ih acc
    · cases hp : parseDir f with
      | none =>
        have hs : pass1PureStep acc f = acc := by
          unfold pass1PureStep; rw [if_neg hr, hp]
        have hd : allDatesOf (f :: rest) = allDatesOf rest := by
          unfold allDatesOf; rw [List.filterMap_cons, if_neg hr, hp]
        rw [hs, hd]
        exact ih acc
      | some d =>
        have hs : pass1PureStep acc f = updateMax acc (detailTaskPass1 f) d := by
          unfold pass1PureStep; rw [if_neg hr, hp]
        have hd : allDatesOf (f :: rest) = d :: allDatesOf rest := by
          unfold allDatesOf; rw [List.filterMap_cons, if_neg hr, hp]
        rw [hs, hd, ih, maxDate_updateMax]
        rfl

theorem alFind?_mapIso (l : List (Str × PyDateTime)) (t : Str) :
    alFind? (l.map (fun p => (p.1, pyIsoformat p.2))) t =
      (alFind? l t).map pyIsoformat := by
  induction l with
  | nil => rfl
  | cons p rest ih =>
    obtain ⟨a, b⟩ := p
    by_cases ha : a = t
    · subst ha
      simp [alFind?]
    · simp [alFind?, ha, ih]

theorem flatMap_perm {α β : Type} (g : α → List β) {l1 l2 : List α} (h : l1.Perm l2) :
    (l1.flatMap g).Perm (l2.flatMap g) := by
  induction h with
  | nil => exact List.Perm.refl _
  | cons x _ ih =>
    rw [List.flatMap_cons, List.flatMap_cons]
    exact List.Perm.append_left (g x) ih
  | swap x y l =>
    rw [List.flatMap_cons, List.flatMap_cons, List.flatMap_cons, List.flatMap_cons,
      ← List.append_assoc, ← List.append_assoc]
    exact List.Perm.append_right _ List.perm_append_comm
  | trans _ _ ih1 ih2 => exact ih1.trans ih2

/-- Destructuring a successful reconciliation into its three stages. -/
theorem recreate_ok_destruct (l : List Str) (c : CardMetadata)
    (h : recreate_metadata_card l = Except.ok c) :
    ∃ (last : List (Str × PyDateTime)) (mx : PyDateTime) (mult : Bool),
      pass1 (l.filter (fun f => containsSub f (".parquet".toList))) = Except.ok last ∧
      maxDate last = some mx ∧
      (l.filter (fun f => containsSub f (".parquet".toList))).foldlM
        (pass2Step mult (last.map (fun p => (p.1, pyIsoformat p.2))) (pyIsoformat mx))
        [] = Except.ok c := by
  simp only [recreate_metadata_card] at h
  split at h
  next e heq => exact Except.noConfusion h
  next last heq =>
    split at h
    next heq2 => exact Except.noConfusion h
    next mx heq2 => exact ⟨last, mx, _, heq, heq2, h⟩

/-! ## C1: order (in)dependence of the configuration document -/

/-- C1 counterexample: swapping the two detail files of Scenario B (with two
result files so the run completes) permutes the dated split entries of config
`mmlu_us_history`, so the configuration document — which keeps entry order —
differs: reconciliation is not literally order independent. -/
theorem c1_counterexample :
    (["a.json".toList, "b.json".toList, fileJan, fileFeb] : List Str).Perm
        ["a.json".toList, "b.json".toList, fileFeb, fileJan] ∧
    recreate_metadata_card ["a.json".toList, "b.json".toList, fileJan, fileFeb] ≠
      recreate_metadata_card ["a.json".toList, "b.json".toList, fileFeb, fileJan] := by
  constructor
  · exact ((List.Perm.swap fileFeb fileJan []).cons _).cons _
  · decide

/-- C1 (amended): permuting the listing permutes only the order of the
entries; for any two successful reconciliations of permuted listings the sets
of (config name, split name, path) assignments — the configuration documents
up to entry order — are equal as multisets. -/
theorem c1_amended (l1 l2 : List Str) (hperm : l1.Perm l2) (c1 c2 : CardMetadata)
    (h1 : recreate_metadata_card l1 = Except.ok c1)
    (h2 : recreate_metadata_card l2 = Except.ok c2) :
    (flatten c1 : Multiset (Str × Str × Str)) =
      (flatten c2 : Multiset (Str × Str × Str)) := by
  obtain ⟨last1, mx1, mult1, hp1, hm1, hf1⟩ := recreate_ok_destruct l1 c1 h1
  obtain ⟨last2, mx2, mult2, hp2, hm2, hf2⟩ := recreate_ok_destruct l2 c2 h2
  have hpq : (l1.filter (fun f => containsSub f (".parquet".toList))).Perm
      (l2.filter (fun f => containsSub f (".parquet".toList))) := hperm.filter _
  have hl1 : last1 = pass1Pure (l1.filter (fun f => containsSub f (".parquet".toList))) :=
    pass1_ok_eq_pure _ _ _ hp1
  have hl2 : last2 = pass1Pure (l2.filter (fun f => containsSub f (".parquet".toList))) :=
    pass1_ok_eq_pure _ _ _ hp2
  have hlk : ∀ t, alFind? last1 t = alFind? last2 t := by
    intro t
    rw [hl1, hl2]
    unfold pass1Pure
    rw [pass1Pure_lookup_aux, pass1Pure_lookup_aux]
    have hdp : (datesOf (l1.filter (fun f => containsSub f (".parquet".toList))) t).Perm
        (datesOf (l2.filter (fun f => containsSub f (".parquet".toList))) t) := by
      unfold datesOf
      exact hpq.filterMap _
    exact optFold_perm hdp _
  have hmx : mx1 = mx2 := by
    have e1 : maxDate last1 = optFoldPymax none
        (allDatesOf (l1.filter (fun f => containsSub f (".parquet".toList)))) := by
      rw [hl1]
      unfold pass1Pure
      exact maxDate_pass1Pure_aux _ []
    have e2 : maxDate last2 = optFoldPymax none
        (allDatesOf (l2.filter (fun f => containsSub f (".parquet".toList)))) := by
      rw [hl2]
      unfold pass1Pure
      exact maxDate_pass1Pure_aux _ []
    have hda : (allDatesOf (l1.filter (fun f => containsSub f (".parquet".toList)))).Perm
        (allDatesOf (l2.filter (fun f => containsSub f (".parquet".toList)))) := by
      unfold allDatesOf
      exact hpq.filterMap _
    rw [e1] at hm1
    rw [e2, ← optFold_perm hda none] at hm2
    rw [hm1] at hm2
    exact Option.some.inj hm2
  subst hmx
  have hdelta : deltaFile (last1.map (fun p => (p.1, pyIsoformat p.2))) (pyIsoformat mx1) =
      deltaFile (last2.map (fun p => (p.1, pyIsoformat p.2))) (pyIsoformat mx1) := by
    funext f
    unfold deltaFile
    by_cases hr : containsSub f ("results_".toList) = true
    · rw [if_pos hr, if_pos hr]
    · rw [if_neg hr, if_neg hr, alFind?_mapIso, alFind?_mapIso, hlk (detailTaskPass2 f)]
  have e1 := pass2_fold_flatten mult1 (last1.map (fun p => (p.1, pyIsoformat p.2)))
    (pyIsoformat mx1) (l1.filter (fun f => containsSub f (".parquet".toList))) [] c1 hf1
  have e2 := pass2_fold_flatten mult2 (last2.map (fun p => (p.1, pyIsoformat p.2)))
    (pyIsoformat mx1) (l2.filter (fun f => containsSub f (".parquet".toList))) [] c2 hf2
  rw [e1, e2, hdelta]
  have hfm : (((l1.filter (fun f => containsSub f (".parquet".toList))).flatMap
        (deltaFile (last2.map (fun p => (p.1, pyIsoformat p.2))) (pyIsoformat mx1)) :
        List (Str × Str × Str)) : Multiset (Str × Str × Str)) =
      (((l2.filter (fun f => containsSub f (".parquet".toList))).flatMap
        (deltaFile (last2.map (fun p => (p.1, pyIsoformat p.2))) (pyIsoformat mx1)) :
        List (Str × Str × Str)) : Multiset (Str × Str × Str)) :=
    Multiset.coe_eq_coe.mpr (flatMap_perm _ hpq)
  rw [hfm]

/-- The configuration document produced for Scenario C with the two detail
files listed in the opposite order. -/
def cmScenarioCswap : CardMetadata :=
  [(("lighteval_mmlu_world_religions_5".toList),
    [⟨"2024_03_05T10_00_00.123456".toList,
      ["**/details_lighteval|mmlu:world_religions|5_2024-03-05T10-00-00.123456.parquet".toList]⟩,
     ⟨"latest".toList,
      ["**/details_lighteval|mmlu:world_religions|5_2024-03-05T10-00-00.123456.parquet".toList]⟩]),
   (("lighteval_mmlu_5".toList),
    [⟨"2024_03_05T10_00_00.123456".toList,
      ["**/details_lighteval|mmlu:world_religions|5_2024-03-05T10-00-00.123456.parquet".toList,
       "**/details_lighteval|mmlu:us_history|5_2024-03-05T10-00-00.123456.parquet".toList]⟩,
     ⟨"latest".toList,
      ["**/details_lighteval|mmlu:world_religions|5_2024-03-05T10-00-00.123456.parquet".toList,
       "**/details_lighteval|mmlu:us_history|5_2024-03-05T10-00-00.123456.parquet".toList]⟩]),
   (("lighteval_mmlu_us_history_5".toList),
    [⟨"2024_03_05T10_00_00.123456".toList,
      ["**/details_lighteval|mmlu:us_history|5_2024-03-05T10-00-00.123456.parquet".toList]⟩,
     ⟨"latest".toList,
      ["**/details_lighteval|mmlu:us_history|5_2024-03-05T10-00-00.123456.parquet".toList]⟩])]

/-- C1 witness: the two orders of the Scenario C listing yield configuration
documents with the same triple multiset. -/
theorem c1_witness :
    (flatten cmScenarioC : Multiset (Str × Str × Str)) =
      (flatten cmScenarioCswap : Multiset (Str × Str × Str)) :=
  c1_amended [fileUsHistory, fileWorldReligions] [fileWorldReligions, fileUsHistory]
    (List.Perm.swap fileWorldReligions fileUsHistory []) cmScenarioC cmScenarioCswap
    (by decide) (by decide)

/-! ## C6: uniqueness of split names within one config -/

/-- The split-name column of a config's `data_files` list. -/
def namesOf (es : DataFiles) : List Str :=
  es.map (fun e => e.split)

/-- Every config of the document has pairwise distinct split names. -/
def nodupNames (cm : CardMetadata) : Prop :=
  ∀ p ∈ cm, (namesOf p.2).Nodup

theorem sanitizeWDot_iso_ne_latest (d : PyDateTime) :
    ¬ sanitizeWDot (pyIsoformat d) = "latest".toList := by
  intro h
  have hlen : (emitDigits 4 d.year).length = 4 := emitDigits_length 4 d.year
  cases he : emitDigits 4 d.year with
  | nil => rw [he] at hlen; simp at hlen
  | cons c0 rest =>
    have hc0 : c0.isDigit = true :=
      emitDigits_isDigit 4 d.year c0 (by rw [he]; exact List.mem_cons_self _ _)
    unfold pyIsoformat at h
    rw [he] at h
    unfold sanitizeWDot at h
    rw [show ("latest".toList : Str) = 'l' :: "atest".toList from rfl] at h
    simp only [List.cons_append, List.append_assoc, List.map_cons] at h
    have hw : (isWordChar c0 || c0 == '.') = true := by
      have hd : ('0' ≤ c0 && c0 ≤ '9') = true := hc0
      simp [isWordChar, hd]
    rw [if_pos hw] at h
    have hc0l : c0 = 'l' := (List.cons.inj h).1
    rw [hc0l] at hc0
    exact absurd hc0 (by decide)

theorem alFind?_mem {α : Type} (cm : List (Str × α)) (k : Str) (v : α)
    (h : alFind? cm k = some v) : (k, v) ∈ cm := by
  induction cm with
  | nil => exact Option.noConfusion h
  | cons p rest ih =>
    obtain ⟨a, b⟩ := p
    by_cases ha : a = k
    · subst ha
      simp [alFind?] at h
      subst h
      exact List.mem_cons_self _ _
    · simp [alFind?, ha] at h
      exact List.mem_cons_of_mem _ (ih h)

theorem nodupNames_alSet (k : Str) (es : DataFiles) (hes : (namesOf es).Nodup) :
    ∀ cm : CardMetadata, nodupNames cm → nodupNames (alSet cm k es) := by
  intro cm
  induction cm with
  | nil =>
    intro _ p hp
    simp [alSet] at hp
    subst hp
    exact hes
  | cons q rest ih =>
    intro hP
    obtain ⟨a, b⟩ := q
    have hPrest : nodupNames rest := fun p hp => hP p (List.mem_cons_of_mem _ hp)
    by_cases ha : a = k
    · subst ha
      rw [alSet_cons_self]
      intro p hp
      rcases List.mem_cons.mp hp with rfl | hp
      · exact hes
      · exact hP p (List.mem_cons_of_mem _ hp)
    · rw [alSet_cons_ne _ _ _ _ _ ha]
      intro p hp
      rcases List.mem_cons.mp hp with rfl | hp
      · exact hP (a, b) (List.mem_cons_self _ _)
      · exact ih hPrest p hp

theorem namesOf_addToFirstSplit (es : DataFiles) (s p : Str) :
    namesOf (addToFirstSplit es s p) = namesOf es := by
  induction es with
  | nil => rfl
  | cons e rest ih =>
    by_cases he : (e.split == s) = true
    · simp [addToFirstSplit, he, namesOf]
    · simp [addToFirstSplit, he, namesOf] at *
      exact ih

theorem hasSplitNamed_false_not_mem (es : DataFiles) (s : Str)
    (h : hasSplitNamed es s = false) : s ∉ namesOf es := by
  intro hmem
  unfold namesOf at hmem
  rcases List.mem_map.mp hmem with ⟨e, he, hsplit⟩
  unfold hasSplitNamed at h
  rw [List.any_eq_false] at h
  exact absurd (by simp [hsplit]) (h e he)

theorem nodup_alGetD (cm : CardMetadata) (k : Str) (hP : nodupNames cm) :
    (namesOf (alGetD cm k [])).Nodup := by
  cases hv : alFind? cm k with
  | none => simp [alGetD, hv, namesOf]
  | some es =>
    have := hP (k, es) (alFind?_mem _ _ _ hv)
    simpa [alGetD, hv] using this

theorem nodupNames_mergeOrAppendSplit (sst sp p : Str) (cm : CardMetadata)
    (hP : nodupNames cm) : nodupNames (mergeOrAppendSplit cm sst sp p) := by
  have hfe : (namesOf (alGetD cm sst [])).Nodup := nodup_alGetD cm sst hP
  simp only [mergeOrAppendSplit]
  by_cases hs : hasSplitNamed (alGetD cm sst []) sp = true
  · rw [if_pos hs]
    refine nodupNames_alSet sst _ ?_ cm hP
    rw [namesOf_addToFirstSplit]
    exact hfe
  · rw [if_neg hs]
    refine nodupNames_alSet sst _ ?_ cm hP
    have hnot : sp ∉ namesOf (alGetD cm sst []) :=
      hasSplitNamed_false_not_mem _ _ (by simpa using hs)
    unfold namesOf at *
    rw [List.map_append]
    simp [List.nodup_append, hfe, hnot]

theorem nodupNames_specialUpdate (sst sed p : Str) (cm : CardMetadata)
    (hP : nodupNames cm) : nodupNames (specialUpdate cm sst sed p) := by
  unfold specialUpdate
  by_cases hc : alContains cm sst = true
  · rw [if_neg (by simp [hc])]
    exact nodupNames_mergeOrAppendSplit sst sed p cm hP
  · rw [if_pos (by simpa using hc)]
    exact nodupNames_alSet sst _ (by simp [namesOf]) cm hP

theorem nodupNames_specialStepOne (task_name sanitized_task sed slast repo_file_name : Str)
    (cm : CardMetadata) (special_task : Str) (hP : nodupNames cm) :
    nodupNames (specialStepOne task_name sanitized_task sed slast repo_file_name cm
      special_task) := by
  simp only [specialStepOne]
  by_cases hc : containsSub sanitized_task (sanitizeW special_task) = true
  · rw [if_pos hc]
    by_cases he : (sed == slast) = true
    · rw [if_pos he]
      exact nodupNames_mergeOrAppendSplit _ _ _ _
        (nodupNames_specialUpdate _ _ _ cm hP)
    · rw [if_neg he]
      exact nodupNames_specialUpdate _ _ _ cm hP
  · rw [if_neg hc]
    exact hP

theorem nodupNames_specialFold (task_name sanitized_task sed slast repo_file_name : Str) :
    ∀ (specials : List Str) (cm : CardMetadata), nodupNames cm →
      nodupNames (specials.foldl
        (specialStepOne task_name sanitized_task sed slast repo_file_name) cm) := by
  intro specials
  induction specials with
  | nil => intro cm hP; exact hP
  | cons s rest ih =>
    intro cm hP
    rw [List.foldl_cons]
    exact ih _ (nodupNames_specialStepOne _ _ _ _ _ cm s hP)

/-- In single-result mode the per-file config is written fresh as one entry,
and the `latest` entry appended to it keeps the names distinct because a
sanitized isoformat never spells `latest`. -/
theorem nodupNames_latestUpdate_fresh (cm : CardMetadata) (st sed slast q : Str)
    (hP : nodupNames cm) (hlat : ¬ slast = "latest".toList) :
    nodupNames (latestUpdate (alSet cm st [⟨sed, [q]⟩]) st sed slast q) := by
  have hcm1 : nodupNames (alSet cm st [⟨sed, [q]⟩]) :=
    nodupNames_alSet st _ (by simp [namesOf]) cm hP
  unfold latestUpdate
  by_cases he : (sed == slast) = true
  · rw [if_pos he]
    have hsed : sed = slast := eq_of_beq he
    unfold appendEntry
    have hg : alGetD (alSet cm st [⟨sed, [q]⟩]) st [] = [⟨sed, [q]⟩] := by
      unfold alGetD
      rw [alFind?_alSet_self]
      rfl
    rw [hg]
    refine nodupNames_alSet st _ ?_ _ hcm1
    have hne : ¬ sed = ("latest".toList) := by rw [hsed]; exact hlat
    have hnm : namesOf ([⟨sed, [q]⟩] ++ [⟨("latest".toList), [q]⟩]) =
        [sed, "latest".toList] := rfl
    rw [hnm]
    exact List.nodup_cons.mpr
      ⟨fun hmem => hne (List.mem_singleton.mp hmem), List.nodup_singleton _⟩
  · rw [if_neg he]
    exact hcm1

/-- One configuration-building step in single-result mode keeps all split
names of every config pairwise distinct. -/
theorem pass2Step_nodup (li : List (Str × Str)) (mi : Str)
    (hli : ∀ t v, alFind? li t = some v → ∃ d, v = pyIsoformat d)
    (hmi : ∃ d, mi = pyIsoformat d)
    (cm cm' : CardMetadata) (f : Str) (hP : nodupNames cm)
    (h : pass2Step false li mi cm f = Except.ok cm') : nodupNames cm' := by
  simp only [pass2Step] at h
  by_cases hr : containsSub f ("results_".toList) = true
  · rw [if_pos hr] at h
    revert h
    cases hm : mainConfigUpdate false cm ("results".toList)
        (sanitizeWDot (replaceList (".parquet".toList) []
          (replaceList ("results_".toList) [] (basename f)))) (basename f) with
    | error e => intro h; exact Except.noConfusion h
    | ok cm1 =>
      intro h
      obtain rfl := Except.ok.inj h
      simp only [mainConfigUpdate] at hm
      revert hm
      by_cases hc : alContains cm ("results".toList) = true
      · rw [if_pos hc]
        intro hm
        exact Except.noConfusion hm
      · rw [if_neg hc]
        intro hm
        obtain rfl := Except.ok.inj hm
        obtain ⟨d, hd⟩ := hmi
        refine nodupNames_latestUpdate_fresh cm _ _ _ _ hP ?_
        rw [hd]
        exact sanitizeWDot_iso_ne_latest d
  · rw [if_neg hr] at h
    revert h
    cases hfind : alFind? li (detailTaskPass2 f) with
    | none => intro h; exact Except.noConfusion h
    | some liv =>
      cases hm : mainConfigUpdate false cm (sanitizeW (detailTaskPass2 f))
          (sanitizeWDot (dirname f)) (("**/".toList) ++ basename f) with
      | error e => intro h; exact Except.noConfusion h
      | ok cm1 =>
        intro h
        obtain rfl := Except.ok.inj h
        simp only [mainConfigUpdate] at hm
        revert hm
        by_cases hc : alContains cm (sanitizeW (detailTaskPass2 f)) = true
        · rw [if_pos hc]
          intro hm
          exact Except.noConfusion hm
        · rw [if_neg hc]
          intro hm
          obtain rfl := Except.ok.inj hm
          obtain ⟨d, hd⟩ := hli _ _ hfind
          refine nodupNames_specialFold _ _ _ _ _ SPECIAL_TASKS _ ?_
          refine nodupNames_latestUpdate_fresh cm _ _ _ _ hP ?_
          rw [hd]
          exact sanitizeWDot_iso_ne_latest d

theorem pass2_fold_nodup (li : List (Str × Str)) (mi : Str)
    (hli : ∀ t v, alFind? li t = some v → ∃ d, v = pyIsoformat d)
    (hmi : ∃ d, mi = pyIsoformat d) :
    ∀ (fs : List Str) (cm cm' : CardMetadata), nodupNames cm →
      fs.foldlM (pass2Step false li mi) cm = Except.ok cm' → nodupNames cm' := by
  intro fs
  induction fs with
  | nil =>
    intro cm cm' hP h
    obtain rfl := Except.ok.inj h
    exact hP
  | cons f rest ih =>
    intro cm cm' hP h
    rw [List.foldlM_cons] at h
    revert h
    cases hs : pass2Step false li mi cm f with
    | error e =>
      intro h
      rw [except_error_bind] at h
      exact Except.noConfusion h
    | ok cm1 =>
      intro h
      rw [except_ok_bind] at h
      exact ih cm1 cm' (pass2Step_nodup li mi hli hmi cm cm1 f hP hs) h

/-- A second shard of the January run: same task, same run directory,
different physical file name. -/
def fileJanShard : Str :=
  "2024-01-01T00-00-00.123456/details_mmlu:us_history_2024-01-01T00-00-00.123456_p1.parquet".toList

/-- What multiple-results mode produces for two shards of one run. -/
def cmShards : CardMetadata :=
  [(("mmlu_us_history".toList),
    [⟨"2024_01_01T00_00_00.123456".toList,
      ["**/details_mmlu:us_history_2024-01-01T00-00-00.123456.parquet".toList]⟩,
     ⟨"latest".toList,
      ["**/details_mmlu:us_history_2024-01-01T00-00-00.123456.parquet".toList]⟩,
     ⟨"2024_01_01T00_00_00.123456".toList,
      ["**/details_mmlu:us_history_2024-01-01T00-00-00.123456_p1.parquet".toList]⟩,
     ⟨"latest".toList,
      ["**/details_mmlu:us_history_2024-01-01T00-00-00.123456_p1.parquet".toList]⟩])]

/-- C6 counterexample: in multiple-results mode, two detail shards of the
same run give config `mmlu_us_history` two entries with the same dated split
name and two entries named `latest`: split names are not pairwise distinct
and `latest` is not a single duplicate of the maximum split. -/
theorem c6_counterexample :
    recreate_metadata_card ["a.json".toList, "b.json".toList, fileJan, fileJanShard] =
      Except.ok cmShards ∧
    ¬ (namesOf (alGetD cmShards ("mmlu_us_history".toList) [])).Nodup :=
  ⟨by decide, by decide⟩

/-- C6 (amended): in single-result mode (at most one `.json` file in the
listing) every config of a completed reconciliation has pairwise distinct
split names — in particular at most one `latest` entry per config. -/
theorem c6_amended (l : List Str) (c : CardMetadata)
    (hsingle : (l.filter (fun f => containsSub f (".json".toList))).length ≤ 1)
    (hok : recreate_metadata_card l = Except.ok c) :
    nodupNames c := by
  simp only [recreate_metadata_card] at hok
  split at hok
  next e heq => exact Except.noConfusion hok
  next last heq =>
    split at hok
    next heq2 => exact Except.noConfusion hok
    next mx heq2 =>
      have hmf : decide ((l.filter (fun f => containsSub f (".json".toList))).length > 1)
          = false := decide_eq_false (by omega)
      rw [hmf] at hok
      refine pass2_fold_nodup (last.map (fun p => (p.1, pyIsoformat p.2))) (pyIsoformat mx)
        ?_ ⟨mx, rfl⟩ _ [] c (fun p hp => absurd hp (List.not_mem_nil p)) hok
      intro t v hv
      rw [alFind?_mapIso] at hv
      cases hl : alFind? last t with
      | none => rw [hl] at hv; exact Option.noConfusion hv
      | some d2 =>
        rw [hl] at hv
        refine ⟨d2, ?_⟩
        have hvv : some (pyIsoformat d2) = some v := hv
        exact (Option.some.inj hvv).symm

/-- The configuration document of the single January run. -/
def cmJanOnly : CardMetadata :=
  [(("mmlu_us_history".toList),
    [⟨"2024_01_01T00_00_00.123456".toList,
      ["**/details_mmlu:us_history_2024-01-01T00-00-00.123456.parquet".toList]⟩,
     ⟨"latest".toList,
      ["**/details_mmlu:us_history_2024-01-01T00-00-00.123456.parquet".toList]⟩])]

/-- C6 witness: the single-run listing is in single-result mode and its
config's split names are distinct. -/
theorem c6_witness : nodupNames cmJanOnly :=
  c6_amended [fileJan] cmJanOnly (by decide) (by decide)

/-! ## C2: the `latest` split against the maximum-timestamp split -/

/-- The paths assigned to one (config, split) cell by a triple list. -/
def pathsAt (tr : List (Str × Str × Str)) (cfg sp : Str) : List Str :=
  (tr.filter (fun q => q.1 == cfg && q.2.1 == sp)).map (fun q => q.2.2)

theorem pathsAt_append (t1 t2 : List (Str × Str × Str)) (cfg sp : Str) :
    pathsAt (t1 ++ t2) cfg sp = pathsAt t1 cfg sp ++ pathsAt t2 cfg sp := by
  unfold pathsAt
  rw [List.filter_append, List.map_append]

theorem pathsAt_perm (t1 t2 : List (Str × Str × Str)) (h : t1.Perm t2) (cfg sp : Str) :
    (pathsAt t1 cfg sp).Perm (pathsAt t2 cfg sp) :=
  (h.filter _).map _

theorem pathsAt_main_nil (st' sed q' st a : Str) (cond : Bool) (h : ¬ st' = st) :
    pathsAt ((st', sed, q') ::
      (if cond = true then [(st', ("latest".toList), q')] else [])) st a = [] := by
  have hb : (st' == st) = false := beq_eq_false_iff_ne.mpr h
  by_cases hc : cond = true
  · rw [if_pos hc]
    simp [pathsAt, hb]
  · rw [if_neg hc]
    simp [pathsAt, hb]

theorem deltaFile_results (li : List (Str × Str)) (mi : Str) (f : Str)
    (hr : containsSub f ("results_".toList) = true) :
    deltaFile li mi f =
      (("results".toList), sanitizeWDot (replaceList (".parquet".toList) []
          (replaceList ("results_".toList) [] (basename f))), basename f) ::
        (if (sanitizeWDot (replaceList (".parquet".toList) []
              (replaceList ("results_".toList) [] (basename f))) == sanitizeWDot mi) = true
         then [(("results".toList), ("latest".toList), basename f)] else []) := by
  unfold deltaFile
  rw [if_pos hr]

theorem deltaFile_detail_none (li : List (Str × Str)) (mi : Str) (f : Str)
    (hr : containsSub f ("results_".toList) = false)
    (hfind : alFind? li (detailTaskPass2 f) = none) : deltaFile li mi f = [] := by
  unfold deltaFile
  rw [if_neg (by rw [hr]; exact Bool.false_ne_true), hfind]

theorem deltaFile_detail_some (li : List (Str × Str)) (mi : Str) (f : Str) (liv : Str)
    (hr : containsSub f ("results_".toList) = false)
    (hfind : alFind? li (detailTaskPass2 f) = some liv) :
    deltaFile li mi f =
      ((sanitizeW (detailTaskPass2 f), sanitizeWDot (dirname f),
          ("**/".toList) ++ basename f) ::
        (if (sanitizeWDot (dirname f) == sanitizeWDot liv) = true
         then [(sanitizeW (detailTaskPass2 f), ("latest".toList),
                ("**/".toList) ++ basename f)]
         else [])) ++
      SPECIAL_TASKS.flatMap (deltaSpecial (detailTaskPass2 f)
        (sanitizeW (detailTaskPass2 f)) (sanitizeWDot (dirname f)) (sanitizeWDot liv)
        (("**/".toList) ++ basename f)) := by
  unfold deltaFile
  rw [if_neg (by rw [hr]; exact Bool.false_ne_true), hfind]

theorem pathsAt_deltaSpecial_nil (tn st' sed slast q st a s : Str)
    (h : ¬ specialTaskName (sanitizeW s) tn = st) :
    pathsAt (deltaSpecial tn st' sed slast q s) st a = [] := by
  simp only [deltaSpecial]
  by_cases hc : containsSub st' (sanitizeW s) = true
  · rw [if_pos hc]
    exact pathsAt_main_nil _ _ _ _ _ _ h
  · rw [if_neg hc]
    rfl

theorem pathsAt_specialFlat_nil (tn st' sed slast q st a : Str) :
    ∀ specials : List Str, (∀ s ∈ specials, ¬ specialTaskName (sanitizeW s) tn = st) →
      pathsAt (specials.flatMap (deltaSpecial tn st' sed slast q)) st a = [] := by
  intro specials
  induction specials with
  | nil => intro h; rfl
  | cons s rest ih =>
    intro h
    rw [List.flatMap_cons, pathsAt_append,
      pathsAt_deltaSpecial_nil tn st' sed slast q st a s (h s (List.mem_cons_self _ _)),
      ih (fun x hx => h x (List.mem_cons_of_mem _ hx))]
    rfl

theorem sanitizeWDot_eq_self_chars : ∀ (s out : Str), (∀ c ∈ out, ¬ c = '_') →
    sanitizeWDot s = out → s = out := by
  intro s
  induction s with
  | nil => intro out hout hmap; exact hmap
  | cons c rest ih =>
    intro out hout hmap
    unfold sanitizeWDot at hmap
    rw [List.map_cons] at hmap
    cases out with
    | nil => exact absurd hmap (by simp)
    | cons o orest =>
      obtain ⟨h1, h2⟩ := List.cons.inj hmap
      have ho : ¬ o = '_' := hout o (List.mem_cons_self _ _)
      have hc : c = o := by
        by_cases hw : (isWordChar c || c == '.') = true
        · rw [if_pos hw] at h1; exact h1
        · rw [if_neg hw] at h1; exact absurd h1.symm ho
      rw [hc, ih orest (fun x hx => hout x (List.mem_cons_of_mem _ hx))
        (by unfold sanitizeWDot; exact h2)]

theorem parse_dirname_ne_latest (f : Str) (d : PyDateTime) (h : parseDir f = some d) :
    ¬ sanitizeWDot (dirname f) = ("latest".toList) := by
  intro he
  have hdir : dirname f = ("latest".toList) :=
    sanitizeWDot_eq_self_chars (dirname f) ("latest".toList) (by decide) he
  unfold parseDir at h
  rw [hdir] at h
  rw [show pyFromIso (isoFromDir ("latest".toList)) = none from by decide] at h
  exact Option.noConfusion h

theorem pass1_ok_parse : ∀ (fs : List Str) (acc m : List (Str × PyDateTime)),
    fs.foldlM pass1Step acc = Except.ok m →
    ∀ f ∈ fs, containsSub f ("results_".toList) = false → ∃ d, parseDir f = some d := by
  intro fs
  induction fs with
  | nil => intro acc m h f hf; exact absurd hf (List.not_mem_nil f)
  | cons g rest ih =>
    intro acc m h f hf hrf
    rw [List.foldlM_cons] at h
    revert h
    cases hs : pass1Step acc g with
    | error e =>
      intro h
      rw [except_error_bind] at h
      exact Except.noConfusion h
    | ok acc1 =>
      intro h
      rw [except_ok_bind] at h
      rcases List.mem_cons.mp hf with rfl | hf'
      · revert hs
        unfold pass1Step
        rw [if_neg (by rw [hrf]; exact Bool.false_ne_true)]
        cases hp : pyFromIso (isoFromDir (dirname f)) with
        | none => intro hs; exact Except.noConfusion hs
        | some d => intro hs; exact ⟨d, by unfold parseDir; rw [hp]⟩
      · exact ih acc1 m h f hf' hrf

/-- One file's contribution to the `latest` column of a task's config equals
its contribution to the maximum-timestamp column, under freedom from
sanitization collisions. -/
theorem deltaFile_columns (li : List (Str × Str)) (mi : Str) (t : Str) (mt : PyDateTime)
    (f : Str)
    (hres : ¬ sanitizeW t = ("results".toList))
    (hlook : containsSub f ("results_".toList) = false →
      sanitizeW (detailTaskPass2 f) = sanitizeW t →
        detailTaskPass2 f = t ∧ alFind? li t = some (pyIsoformat mt))
    (hparse : containsSub f ("results_".toList) = false →
      ¬ sanitizeWDot (dirname f) = ("latest".toList))
    (hspec : containsSub f ("results_".toList) = false →
      ∀ s ∈ SPECIAL_TASKS, ¬ specialTaskName (sanitizeW s) (detailTaskPass2 f) = sanitizeW t) :
    pathsAt (deltaFile li mi f) (sanitizeW t) ("latest".toList) =
      pathsAt (deltaFile li mi f) (sanitizeW t) (sanitizeWDot (pyIsoformat mt)) := by
  by_cases hr : containsSub f ("results_".toList) = true
  · rw [deltaFile_results li mi f hr]
    rw [pathsAt_main_nil _ _ _ _ _ _ (fun he => hres he.symm),
      pathsAt_main_nil _ _ _ _ _ _ (fun he => hres he.symm)]
  · have hr' : containsSub f ("results_".toList) = false := by
      cases hcs : containsSub f ("results_".toList) with
      | true => exact absurd hcs hr
      | false => rfl
    cases hfind : alFind? li (detailTaskPass2 f) with
    | none =>
      rw [deltaFile_detail_none li mi f hr' hfind]
      rfl
    | some liv =>
      rw [deltaFile_detail_some li mi f liv hr' hfind]
      rw [pathsAt_append, pathsAt_append]
      rw [pathsAt_specialFlat_nil _ _ _ _ _ _ _ SPECIAL_TASKS (hspec hr'),
        pathsAt_specialFlat_nil _ _ _ _ _ _ _ SPECIAL_TASKS (hspec hr')]
      rw [List.append_nil, List.append_nil]
      by_cases hst : sanitizeW (detailTaskPass2 f) = sanitizeW t
      · obtain ⟨htn, hfd⟩ := hlook hr' hst
        have hliv : liv = pyIsoformat mt := by
          rw [htn] at hfind
          rw [hfind] at hfd
          exact Option.some.inj hfd
        subst hliv
        rw [hst]
        have hsedlat : (sanitizeWDot (dirname f) == (['l', 'a', 't', 'e', 's', 't'] : Str))
            = false := beq_eq_false_iff_ne.mpr (hparse hr')
        have hlatiso : (((['l', 'a', 't', 'e', 's', 't'] : Str))
            == sanitizeWDot (pyIsoformat mt)) = false :=
          beq_eq_false_iff_ne.mpr (fun he => sanitizeWDot_iso_ne_latest mt he.symm)
        by_cases hse : (sanitizeWDot (dirname f) == sanitizeWDot (pyIsoformat mt)) = true
        · rw [if_pos hse]
          unfold pathsAt
          simp [hsedlat, hlatiso, hse]
        · rw [if_neg hse]
          have hse' : (sanitizeWDot (dirname f) == sanitizeWDot (pyIsoformat mt)) = false := by
            simpa using hse
          unfold pathsAt
          simp [hsedlat, hse']
      · rw [pathsAt_main_nil _ _ _ _ _ _ hst, pathsAt_main_nil _ _ _ _ _ _ hst]

theorem pathsAt_flatMap_columns (li : List (Str × Str)) (mi : Str) (t : Str)
    (mt : PyDateTime) (hres : ¬ sanitizeW t = ("results".toList)) :
    ∀ fs : List Str,
      (∀ f ∈ fs, (containsSub f ("results_".toList) = false →
          sanitizeW (detailTaskPass2 f) = sanitizeW t →
            detailTaskPass2 f = t ∧ alFind? li t = some (pyIsoformat mt)) ∧
        (containsSub f ("results_".toList) = false →
          ¬ sanitizeWDot (dirname f) = ("latest".toList)) ∧
        (containsSub f ("results_".toList) = false →
          ∀ s ∈ SPECIAL_TASKS,
            ¬ specialTaskName (sanitizeW s) (detailTaskPass2 f) = sanitizeW t)) →
      pathsAt (fs.flatMap (deltaFile li mi)) (sanitizeW t) ("latest".toList) =
        pathsAt (fs.flatMap (deltaFile li mi)) (sanitizeW t)
          (sanitizeWDot (pyIsoformat mt)) := by
  intro fs
  induction fs with
  | nil => intro h; rfl
  | cons f rest ih =>
    intro h
    rw [List.flatMap_cons, pathsAt_append, pathsAt_append]
    obtain ⟨h1, h2, h3⟩ := h f (List.mem_cons_self _ _)
    rw [deltaFile_columns li mi t mt f hres h1 h2 h3,
      ih (fun x hx => h x (List.mem_cons_of_mem _ hx))]

/-- A detail file whose run timestamp carries a three-digit fractional part:
`fromisoformat` reads it as 203000 microseconds, so the isoformat of the
parsed maximum is `...04.203000` while the directory sanitizes to `...04.203`. -/
def fileMilli : Str :=
  "2023-09-03T10-57-04.203/details_mmlu:us_history_2023-09-03T10-57-04.203.parquet".toList

/-- The configuration document of the `fileMilli` run. -/
def cmMilli : CardMetadata :=
  [(("mmlu_us_history".toList),
    [⟨"2023_09_03T10_57_04.203".toList,
      ["**/details_mmlu:us_history_2023-09-03T10-57-04.203.parquet".toList]⟩])]

/-- C2 counterexample: reconciliation completes on a listing whose one task
has a detail file, yet the task's config has no `latest` split at all — the
sanitized directory name differs from the sanitized isoformat of the parsed
maximum timestamp, so the `latest` comparison never fires. -/
theorem c2_counterexample :
    recreate_metadata_card [fileMilli] = Except.ok cmMilli ∧
    hasSplitNamed (alGetD cmMilli ("mmlu_us_history".toList) []) ("latest".toList)
      = false :=
  ⟨by decide, by decide⟩

/-- C2 (amended): for a completed reconciliation and a task `t` present in
the first-pass registry with maximum `mt`, if `t`'s sanitized name is not
`results`, no other listed task sanitizes to the same config name, and no
special-group config name coincides with it, then the multiset of paths in
the task's `latest` cells equals the multiset of paths in its cells named
with the sanitized isoformat of `mt`.  (If some detail file of the task has a
non-canonical timestamp spelling — see the counterexample — both sides lose
that file only on the `latest` side being compared against the canonical
spelling, which is why the claim's literal form fails while this form holds.) -/
theorem c2_amended (l : List Str) (c : CardMetadata) (t : Str) (mt : PyDateTime)
    (hok : recreate_metadata_card l = Except.ok c)
    (hreg : alFind? (pass1Pure (l.filter (fun f => containsSub f (".parquet".toList)))) t
      = some mt)
    (hres : ¬ sanitizeW t = ("results".toList))
    (hcoll : ∀ f ∈ l.filter (fun f => containsSub f (".parquet".toList)),
      containsSub f ("results_".toList) = false →
      sanitizeW (detailTaskPass2 f) = sanitizeW t → detailTaskPass2 f = t)
    (hspec : ∀ f ∈ l.filter (fun f => containsSub f (".parquet".toList)),
      containsSub f ("results_".toList) = false →
      ∀ s ∈ SPECIAL_TASKS,
        ¬ specialTaskName (sanitizeW s) (detailTaskPass2 f) = sanitizeW t) :
    (pathsAt (flatten c) (sanitizeW t) ("latest".toList) : Multiset Str) =
      (pathsAt (flatten c) (sanitizeW t) (sanitizeWDot (pyIsoformat mt)) :
        Multiset Str) := by
  obtain ⟨last, mx, mult, hp1, hm1, hf1⟩ := recreate_ok_destruct l c hok
  have hl : last = pass1Pure (l.filter (fun f => containsSub f (".parquet".toList))) :=
    pass1_ok_eq_pure _ _ _ hp1
  have e1 := pass2_fold_flatten mult (last.map (fun p => (p.1, pyIsoformat p.2)))
    (pyIsoformat mx) (l.filter (fun f => containsSub f (".parquet".toList))) [] c hf1
  have hnil : ((flatten ([] : CardMetadata) : List (Str × Str × Str)) :
      Multiset (Str × Str × Str)) = 0 := rfl
  have hco : (flatten c : Multiset (Str × Str × Str)) =
      (((l.filter (fun f => containsSub f (".parquet".toList))).flatMap
          (deltaFile (last.map (fun p => (p.1, pyIsoformat p.2))) (pyIsoformat mx)) :
        List (Str × Str × Str)) : Multiset (Str × Str × Str)) := by
    rw [e1, hnil, zero_add]
  have hperm := Multiset.coe_eq_coe.mp hco
  have h2 := pathsAt_flatMap_columns (last.map (fun p => (p.1, pyIsoformat p.2)))
    (pyIsoformat mx) t mt hres
    (l.filter (fun f => containsSub f (".parquet".toList))) ?hyp
  case hyp =>
    intro f hf
    refine ⟨?_, ?_, fun hrf => hspec f hf hrf⟩
    · intro hrf hst
      refine ⟨hcoll f hf hrf hst, ?_⟩
      rw [← hl] at hreg
      rw [alFind?_mapIso, hreg]
      rfl
    · intro hrf
      obtain ⟨d, hd⟩ := pass1_ok_parse _ [] last hp1 f hf hrf
      exact parse_dirname_ne_latest f d hd
  refine Multiset.coe_eq_coe.mpr ?_
  have p1 := pathsAt_perm _ _ hperm (sanitizeW t) ("latest".toList)
  have p2 := pathsAt_perm _ _ hperm (sanitizeW t) (sanitizeWDot (pyIsoformat mt))
  have p3 : (pathsAt ((l.filter (fun f => containsSub f (".parquet".toList))).flatMap
        (deltaFile (last.map (fun p => (p.1, pyIsoformat p.2))) (pyIsoformat mx)))
        (sanitizeW t) ("latest".toList)).Perm
      (pathsAt (flatten c) (sanitizeW t) (sanitizeWDot (pyIsoformat mt))) := by
    rw [h2]
    exact p2.symm
  exact p1.trans p3

/-- The configuration document of the Scenario B listing padded with two
result files (identical to the literal of the C4 theorem). -/
def cmJanFeb : CardMetadata :=
  [(("mmlu_us_history".toList),
    [⟨"2024_01_01T00_00_00.123456".toList,
      ["**/details_mmlu:us_history_2024-01-01T00-00-00.123456.parquet".toList]⟩,
     ⟨"2024_02_01T00_00_00.123456".toList,
      ["**/details_mmlu:us_history_2024-02-01T00-00-00.123456.parquet".toList]⟩,
     ⟨"latest".toList,
      ["**/details_mmlu:us_history_2024-02-01T00-00-00.123456.parquet".toList]⟩])]

/-- C2 witness: on the Scenario B listing, the paths at `latest` of config
`mmlu_us_history` are exactly the paths at its February maximum split. -/
theorem c2_witness :
    (pathsAt (flatten cmJanFeb) (sanitizeW ("mmlu:us_history".toList))
        ("latest".toList) : Multiset Str) =
      (pathsAt (flatten cmJanFeb) (sanitizeW ("mmlu:us_history".toList))
        (sanitizeWDot (pyIsoformat ⟨2024, 2, 1, 0, 0, 0, 123456⟩)) : Multiset Str) :=
  c2_amended ["a.json".toList, "b.json".toList, fileJan, fileFeb] cmJanFeb
    ("mmlu:us_history".toList) ⟨2024, 2, 1, 0, 0, 0, 123456⟩
    (by decide) (by decide) (by decide) (by decide) (by decide)
